import Mathlib

/-!
# Verification of the vget media-download core

Shallow embedding of the Rust sources under `src/tauri/src-tauri/src/`:
the Bilibili BV/AV id codec and WBI signing (`extractor/bilibili.rs`),
the Twitter extractor's tiered resolution and parsers (`extractor/twitter.rs`),
the extractor dispatcher (`extractor/mod.rs`), the direct-link matcher
(`extractor/direct.rs`), and the single-stream downloader loop
(`downloader/simple.rs`).

Strings handled by the codec are modelled as lists of bytes (`List Nat`),
matching Rust's byte-level slicing and indexing; all inputs of interest are
ASCII, where bytes and characters coincide.  Machine integers (`i64`, `u64`)
never overflow on the control paths modelled here (values stay far below
`2^63`), so they are embedded as `Nat`/`Int` with explicit masking where the
source masks.
-/

deriving instance DecidableEq for Except

namespace VGet

/-- Byte list of an ASCII string (Rust `str::bytes`). -/
def strBytes (s : String) : List Nat := s.data.map Char.toNat

/-- ASCII uppercase of one byte (the effect of Rust `to_uppercase` on ASCII). -/
def upperByte (b : Nat) : Nat := if 97 ≤ b ∧ b ≤ 122 then b - 32 else b

/-- `l` starts (after ASCII-uppercasing) with the byte list `pre`,
modelling Rust `s.to_uppercase().starts_with(pre)` for ASCII prefixes. -/
def startsWithUpper (l pre : List Nat) : Bool :=
  (l.take pre.length).map upperByte == pre

/-- Rust `Vec::swap i j` on a list (indices in bounds in all uses). -/
def lswap (l : List Nat) (i j : Nat) : List Nat :=
  (l.set i (l.getD j 0)).set j (l.getD i 0)

namespace Bilibili

/-! ## BV/AV id codec — `extractor/bilibili.rs` lines 11-132 -/

def XOR_CODE : Nat := 23442827791579
def MASK_CODE : Nat := 2 ^ 51 - 1
def MAX_AID : Nat := MASK_CODE + 1
def BASE : Nat := 58
def BV_LEN : Nat := 9

def ALPHABET : List Nat :=
  strBytes ("FcwAPNKTMug3GV5Lj7EJnHpWsx4tb8haYeviqBz6rkCy12mUSDQX9RdoZf")

/-- `rev_alphabet`: 256-entry lookup built from a zero-initialised array with
`rev[c] = i` for each `(i, c)` in `ALPHABET`; bytes not in the alphabet keep
the initial value `0`. -/
def rev_alphabet (b : Nat) : Nat :=
  (List.range 58).foldl (fun acc i => if ALPHABET.getD i 0 = b then i else acc) 0

/-- Prefix stripping at the head of `bv_to_av`: remove a recognized
`BV1`/`BV` prefix (case-insensitive) if present. -/
def bvCore (l : List Nat) : List Nat :=
  if startsWithUpper l (strBytes ("BV1")) then l.drop 3
  else if startsWithUpper l (strBytes ("BV")) then l.drop 2
  else l

/-- `bv_to_av` (`bilibili.rs:73-105`): strip prefix, check the 9-byte length,
undo the two position swaps, read the base-58 value through `rev_alphabet`,
mask to 51 bits and XOR with the fixed constant. -/
def bv_to_av (bvid : List Nat) : Except String Int :=
  let core := bvCore bvid
  if core.length ≠ BV_LEN then
    .error ("invalid BV ID length: expected " ++ toString BV_LEN ++ ", got "
      ++ toString core.length)
  else
    let bv := lswap (lswap core 0 6) 1 4
    let avid : Nat := bv.foldl (fun a b => a * BASE + rev_alphabet b) 0
    .ok (((avid &&& MASK_CODE) ^^^ XOR_CODE : Nat) : Int)

/-- The digit-writing loop of `av_to_bv` (`bilibili.rs:119-125`): positions are
filled from the last one backwards with `ALPHABET[tmp % 58]`, dividing `tmp`
by 58 each step; once `tmp` reaches 0 the remaining positions keep the
zero-byte initial value. -/
def encDigits : Nat → Nat → List Nat
  | 0, _ => []
  | k + 1, tmp =>
    if tmp = 0 then List.replicate (k + 1) 0
    else encDigits k (tmp / BASE) ++ [ALPHABET.getD (tmp % BASE) 0]

/-- `av_to_bv` (`bilibili.rs:108-132`): range-check the numeric id, set bit 51
and XOR with the fixed constant, emit 9 base-58 digits, apply the two
position swaps and prepend `BV1`. -/
def av_to_bv (avid : Int) : Except String (List Nat) :=
  if avid < 1 then .error ("AV " ++ toString avid ++ " is smaller than 1")
  else if (MAX_AID : Int) ≤ avid then
    .error ("AV " ++ toString avid ++ " is bigger than " ++ toString MAX_AID)
  else
    let tmp : Nat := (MAX_AID ||| avid.toNat) ^^^ XOR_CODE
    let bvid := lswap (lswap (encDigits BV_LEN tmp) 0 6) 1 4
    .ok (strBytes ("BV1") ++ bvid)

end Bilibili

/-! ## Shared data model — `extractor/types.rs`

Rust `String` values handled by the extractors are modelled as `List Char`
(`.chars()` view); all values compared or ordered by the code are ASCII, where
Rust's byte-wise string order and the character-wise order used here agree. -/

/-- Characters of a string literal. -/
def chars (s : String) : List Char := s.data

/-- Decimal rendering of an `i64` (Rust `format!` display). -/
def intChars (i : Int) : List Char := chars (toString i)

/-- Decimal rendering of an unsigned integer. -/
def natChars (n : Nat) : List Char := chars (toString n)

inductive MediaType
  | video
  | audio
  | image
deriving DecidableEq

structure Format where
  id : List Char
  url : List Char
  ext : List Char
  quality : Option (List Char)
  width : Option Nat
  height : Option Nat
  filesize : Option Nat
  audio_url : Option (List Char)
  headers : List (List Char × List Char)
deriving DecidableEq

structure MediaInfo where
  id : List Char
  title : List Char
  uploader : Option (List Char)
  thumbnail : Option (List Char)
  duration : Option Nat
  media_type : MediaType
  formats : List Format
deriving DecidableEq

inductive ExtractError
  | invalidUrl (s : List Char)
  | noExtractor (s : List Char)
  | network (s : List Char)
  | parse (s : List Char)
  | authRequired
  | notAvailable
deriving DecidableEq

/-- Byte-wise lexicographic comparison, the order of Rust `str::cmp` (equal to
character-wise comparison on the ASCII data the code compares). -/
def chCmp : List Char → List Char → Ordering
  | [], [] => .eq
  | [], _ :: _ => .lt
  | _ :: _, [] => .gt
  | a :: as, b :: bs =>
    match compare a.toNat b.toNat with
    | .eq => chCmp as bs
    | o => o

/-- Insertion step of a stable sort: the new element is placed after every
already-placed element that may precede it, so elements the comparator ties
keep their original relative order. -/
def insertLe (le : α → α → Bool) (x : α) : List α → List α
  | [] => [x]
  | y :: ys => if le y x then y :: insertLe le x ys else x :: y :: ys

/-- Rust's stable `sort_by` with an `Ordering` comparator, modelled as a
stable insertion sort over the `cmp ≠ Greater` relation.  For a total,
transitive comparator a stable sort's output is uniquely determined by the
comparator and the input order, so this models the source's (stable)
`slice::sort_by` exactly. -/
def sortBy (cmp : α → α → Ordering) (l : List α) : List α :=
  l.foldl (fun acc x => insertLe (fun a b => decide (cmp a b ≠ Ordering.gt)) x acc) []

/-- `height.unwrap_or(0)` as used by both format comparators. -/
def heightD (f : Format) : Nat := f.height.getD 0

/-- The Twitter format comparator (`twitter.rs:308-312, 437-441`): descending
height, no tie-break. -/
def twitterFormatCmp (a b : Format) : Ordering :=
  compare (heightD b) (heightD a)

/-- The Bilibili format comparator (`bilibili.rs:417-426`): descending height,
ties broken by descending (string) format id. -/
def biliFormatCmp (a b : Format) : Ordering :=
  if heightD a ≠ heightD b then compare (heightD b) (heightD a)
  else chCmp b.id a.id

/-! ## Twitter extractor — `extractor/twitter.rs` -/

namespace Twitter

def isDigitCh (c : Char) : Bool := 48 ≤ c.toNat && c.toNat ≤ 57

def digitsToNat (l : List Char) : Nat := l.foldl (fun a c => a * 10 + (c.toNat - 48)) 0

/-- `str::parse::<u32>` on a digit run: overflow fails and the caller's
`unwrap_or(0)` turns that into 0. -/
def parseU32 (l : List Char) : Nat :=
  let v := digitsToNat l
  if v < 2 ^ 32 then v else 0

/-- Try to match `RESOLUTION_REGEX` = `/(\d+)x(\d+)/` at the head of `l`,
returning the two capture groups. -/
def resAt (l : List Char) : Option (List Char × List Char) :=
  match l with
  | [] => none
  | c :: rest =>
    if c = Char.ofNat 47 then
      let ds1 := rest.takeWhile isDigitCh
      let r1 := rest.dropWhile isDigitCh
      if ds1.isEmpty then none
      else
        match r1 with
        | [] => none
        | x :: r2 =>
          if x = Char.ofNat 120 then
            let ds2 := r2.takeWhile isDigitCh
            let r3 := r2.dropWhile isDigitCh
            if ds2.isEmpty then none
            else
              match r3 with
              | s2 :: _ => if s2 = Char.ofNat 47 then some (ds1, ds2) else none
              | [] => none
          else none
    else none

/-- Leftmost match of `RESOLUTION_REGEX` over the string. -/
def findRes : List Char → Option (List Char × List Char)
  | [] => none
  | c :: rest =>
    match resAt (c :: rest) with
    | some p => some p
    | none => findRes rest

/-- `extract_resolution` (`twitter.rs:506-514`). -/
def extract_resolution (url : List Char) : Nat × Nat :=
  match findRes url with
  | some (w, h) => (parseU32 w, parseU32 h)
  | none => (0, 0)

/-- `estimate_quality` (`twitter.rs:516-528`). -/
def estimate_quality (bitrate : Option Int) : Option (List Char) :=
  bitrate.map (fun b =>
    if b ≥ 2000000 then chars ("1080p")
    else if b ≥ 1000000 then chars ("720p")
    else if b ≥ 500000 then chars ("480p")
    else chars ("360p"))

/-- Substring test (Rust `str::contains`). -/
def containsSub : List Char → List Char → Bool
  | l, pat =>
    match l with
    | [] => pat.isEmpty
    | _ :: rest => pat.isPrefixOf l || containsSub rest pat

def beforeQuery (u : List Char) : List Char := u.takeWhile (fun c => c != Char.ofNat 63)

/-- `get_high_quality_image_url` (`twitter.rs:530-540`). -/
def get_high_quality_image_url (image_url : List Char) : List Char :=
  let base_url := beforeQuery image_url
  let fmt :=
    if containsSub base_url (chars (".png")) then chars ("png")
    else if containsSub base_url (chars (".webp")) then chars ("webp")
    else chars ("jpg")
  base_url ++ chars ("?format=") ++ fmt ++ chars ("&name=orig")

/-- `get_image_extension` (`twitter.rs:542-553`). -/
def get_image_extension (image_url : List Char) : List Char :=
  let base_url := beforeQuery image_url
  if (chars (".png")).isSuffixOf base_url then chars ("png")
  else if (chars (".webp")).isSuffixOf base_url then chars ("webp")
  else if (chars (".gif")).isSuffixOf base_url then chars ("gif")
  else chars ("jpg")

/-- Newline replacement in `truncate_text`: `s.replace(newline, space)` with a
one-character replacement is a character map. -/
def replaceNl (s : List Char) : List Char :=
  s.map (fun c => if c = Char.ofNat 10 then Char.ofNat 32 else c)

/-- `truncate_text` (`twitter.rs:496-504`). -/
def truncate_text (s : List Char) (max_len : Nat) : List Char :=
  let s := replaceNl s
  if s.length ≤ max_len then s
  else s.take (max_len - 3) ++ chars ("...")

structure SyndicationVariant where
  bitrate : Option Int
  content_type : List Char
  url : List Char
deriving DecidableEq

structure SyndicationVideoInfo where
  variants : List SyndicationVariant
deriving DecidableEq

structure SyndicationMedia where
  type : List Char
  media_url_https : List Char
  original_info_width : Option Nat
  original_info_height : Option Nat
  video_info : Option SyndicationVideoInfo
deriving DecidableEq

structure SyndicationUser where
  screen_name : List Char
deriving DecidableEq

structure SyndicationVideoVariant where
  type : List Char
  src : Option (List Char)
deriving DecidableEq

structure SyndicationVideo where
  variants : List SyndicationVideoVariant
deriving DecidableEq

structure SyndicationResponse where
  text : List Char
  user : Option SyndicationUser
  media_details : Option (List SyndicationMedia)
  video : Option SyndicationVideo
deriving DecidableEq

/-- The mp4-variant `Format` built in the video/animated_gif arms (identical
code at `twitter.rs:240-256` and `twitter.rs:394-410`).  The Rust literals
omit the (serde-defaulted) `headers` map, i.e. it is empty. -/
def mp4VariantFormat (bitrate : Option Int) (url : List Char) : Format :=
  let wh := extract_resolution url
  let quality :=
    if wh.2 > 0 then some (natChars wh.2 ++ chars ("p"))
    else estimate_quality bitrate
  { id := chars ("mp4_") ++ intChars (bitrate.getD 0)
    url := url
    ext := chars ("mp4")
    quality := quality
    width := if wh.1 > 0 then some wh.1 else none
    height := if wh.2 > 0 then some wh.2 else none
    filesize := none
    audio_url := none
    headers := [] }

/-- The photo `Format` built in the photo arms (`twitter.rs:260-273` and
`twitter.rs:414-427`), parametrised by the width/height options the two call
sites read from their respective structures. -/
def photoFormat (media_url_https : List Char) (w h : Option Nat) : Format :=
  { id := chars ("photo")
    url := get_high_quality_image_url media_url_https
    ext := get_image_extension media_url_https
    quality := some (chars ("orig"))
    width := w
    height := h
    filesize := none
    audio_url := none
    headers := [] }

/-- Formats contributed by one syndication `mediaDetails` entry
(`twitter.rs:231-276`). -/
def syndMediaFormats (media : SyndicationMedia) : List Format :=
  if media.type = chars ("video") ∨ media.type = chars ("animated_gif") then
    match media.video_info with
    | some video_info =>
      video_info.variants.filterMap (fun variant =>
        if variant.content_type ≠ chars ("video/mp4") then none
        else some (mp4VariantFormat variant.bitrate variant.url))
    | none => []
  else if media.type = chars ("photo") then
    [photoFormat media.media_url_https media.original_info_width media.original_info_height]
  else []

/-- `parse_syndication_response` (`twitter.rs:219-330`). -/
def parse_syndication_response (data : SyndicationResponse) (tweet_id : List Char) :
    Except ExtractError MediaInfo :=
  let title := truncate_text data.text 100
  let uploader := data.user.map (fun u => u.screen_name)
  let formats1 : List Format :=
    match data.media_details with
    | some media_details =>
      media_details.foldl (fun acc media => acc ++ syndMediaFormats media) []
    | none => []
  let formats2 : List Format :=
    if formats1.isEmpty then
      match data.video with
      | some video =>
        video.variants.filterMap (fun variant =>
          if variant.type ≠ chars ("video/mp4") then none
          else variant.src.map (fun src =>
            let wh := extract_resolution src
            { id := chars ("mp4_direct")
              url := src
              ext := chars ("mp4")
              quality := if wh.2 > 0 then some (natChars wh.2 ++ chars ("p")) else none
              width := if wh.1 > 0 then some wh.1 else none
              height := if wh.2 > 0 then some wh.2 else none
              filesize := none
              audio_url := none
              headers := [] }))
      | none => formats1
    else formats1
  if formats2.isEmpty then .error .notAvailable
  else
    let sorted := sortBy twitterFormatCmp formats2
    let media_type :=
      if sorted.any (fun f => f.ext = chars ("mp4")) then MediaType.video else MediaType.image
    .ok { id := tweet_id, title := title, uploader := uploader, thumbnail := none,
          duration := none, media_type := media_type, formats := sorted }

structure GraphQLVariant where
  bitrate : Option Int
  content_type : List Char
  url : List Char
deriving DecidableEq

structure GraphQLVideoInfo where
  duration_millis : Int
  variants : List GraphQLVariant
deriving DecidableEq

structure GraphQLOriginalInfo where
  width : Nat
  height : Nat
deriving DecidableEq

structure GraphQLMedia where
  type : List Char
  media_url_https : List Char
  original_info : Option GraphQLOriginalInfo
  video_info : Option GraphQLVideoInfo
deriving DecidableEq

structure GraphQLUserLegacy where
  screen_name : List Char
deriving DecidableEq

structure GraphQLUser where
  legacy : GraphQLUserLegacy
deriving DecidableEq

structure GraphQLUserResults where
  result : Option GraphQLUser
deriving DecidableEq

structure GraphQLCore where
  user_results : GraphQLUserResults
deriving DecidableEq

structure GraphQLExtendedEntities where
  media : List GraphQLMedia
deriving DecidableEq

structure GraphQLLegacy where
  full_text : List Char
  extended_entities : Option GraphQLExtendedEntities
deriving DecidableEq

/-- `GraphQLResult` (`twitter.rs:626-633`); the `tweet` field boxes a nested
result, so this is an inductive rather than a structure. -/
inductive GraphQLResult
  | mk : List Char → Option GraphQLLegacy → Option GraphQLCore →
      Option GraphQLResult → Option (List Char) → GraphQLResult

def GraphQLResult.typename : GraphQLResult → List Char
  | .mk t _ _ _ _ => t

def GraphQLResult.legacy : GraphQLResult → Option GraphQLLegacy
  | .mk _ l _ _ _ => l

def GraphQLResult.core : GraphQLResult → Option GraphQLCore
  | .mk _ _ c _ _ => c

def GraphQLResult.tweet : GraphQLResult → Option GraphQLResult
  | .mk _ _ _ t _ => t

def GraphQLResult.reason : GraphQLResult → Option (List Char)
  | .mk _ _ _ _ r => r

structure GraphQLTweetResult where
  result : Option GraphQLResult

structure GraphQLData where
  tweet_result : GraphQLTweetResult

structure GraphQLResponse where
  data : GraphQLData

/-- One step of the `extended_entities.media` loop of
`parse_graphql_response` (`twitter.rs:381-430`), threading the
`(formats, duration)` pair the loop mutates. -/
def gqlMediaStep (st : List Format × Option Nat) (media : GraphQLMedia) :
    List Format × Option Nat :=
  if media.type = chars ("video") ∨ media.type = chars ("animated_gif") then
    match media.video_info with
    | some video_info =>
      let dur :=
        if st.2.isNone ∧ video_info.duration_millis > 0 then
          some ((video_info.duration_millis / 1000).toNat)
        else st.2
      let fmts := video_info.variants.filterMap (fun variant =>
        if variant.content_type ≠ chars ("video/mp4") then none
        else some (mp4VariantFormat variant.bitrate variant.url))
      (st.1 ++ fmts, dur)
    | none => st
  else if media.type = chars ("photo") then
    (st.1 ++ [photoFormat media.media_url_https
        (media.original_info.map (fun i => i.width))
        (media.original_info.map (fun i => i.height))], st.2)
  else st

/-- `parse_graphql_response` (`twitter.rs:332-458`), starting from the
deserialized body: JSON decoding (the `serde_json` dependency) sits at the
boundary, and a body that fails to decode is a `Parse` error before this
logic runs. -/
def parse_graphql_response (resp : GraphQLResponse) (tweet_id : List Char) :
    Except ExtractError MediaInfo :=
  match resp.data.tweet_result.result with
  | none => .error .notAvailable
  | some result =>
    if result.typename = chars ("TweetTombstone") then .error .notAvailable
    else if result.typename = chars ("TweetUnavailable") then
      match result.reason with
      | some r =>
        if r = chars ("NsfwLoggedOut") then .error .authRequired
        else if r = chars ("Protected") then .error .authRequired
        else .error .notAvailable
      | none => .error .notAvailable
    else
      match result.legacy.orElse (fun _ => result.tweet.bind GraphQLResult.legacy) with
      | none => .error (.parse (chars ("Could not find tweet data")))
      | some legacy =>
        let title := truncate_text legacy.full_text 100
        let uploader := result.core.bind (fun c =>
          c.user_results.result.map (fun u => u.legacy.screen_name))
        match legacy.extended_entities with
        | none => .error .notAvailable
        | some extended_entities =>
          let fd := extended_entities.media.foldl gqlMediaStep ([], none)
          if fd.1.isEmpty then .error .notAvailable
          else
            let sorted := sortBy twitterFormatCmp fd.1
            let media_type :=
              if sorted.any (fun f => f.ext = chars ("mp4")) then MediaType.video
              else MediaType.image
            .ok { id := tweet_id, title := title, uploader := uploader, thumbnail := none,
                  duration := fd.2, media_type := media_type, formats := sorted }

/-- Head test for the `URL_REGEX` pattern
`(?:twitter\.com|x\.com)/(?:[^/]+)/status/(\d+)` at one position: host
literal, then a non-empty slash-free segment, then `/status/` and at least
one digit (the capture). -/
def statusAt (l : List Char) : Option (List Char) :=
  let afterHost : Option (List Char) :=
    if (chars ("twitter.com/")).isPrefixOf l then some (l.drop 12)
    else if (chars ("x.com/")).isPrefixOf l then some (l.drop 6)
    else none
  afterHost.bind (fun r =>
    let seg := r.takeWhile (fun c => c != Char.ofNat 47)
    let rest := r.dropWhile (fun c => c != Char.ofNat 47)
    if seg.isEmpty then none
    else if (chars ("/status/")).isPrefixOf rest then
      let ds := (rest.drop 8).takeWhile isDigitCh
      if ds.isEmpty then none else some ds
    else none)

/-- Leftmost `URL_REGEX` capture over the whole string (`caps.get(1)`). -/
def statusCapture : List Char → Option (List Char)
  | [] => none
  | c :: rest =>
    match statusAt (c :: rest) with
    | some ds => some ds
    | none => statusCapture rest

/-- The network calls `do_extract` can make, in order of occurrence. -/
inductive TwCall
  | csrf
  | graphqlAuth
  | syndication
  | guestToken
  | graphqlGuest
deriving DecidableEq

/-- Outcome environment for one extraction: the result each endpoint
interaction (fetch + parse) would produce if performed.  This stands for the
network at the extractor's I/O boundary. -/
structure TwEnv where
  csrf : Except ExtractError (List Char)
  graphqlAuth : Except ExtractError MediaInfo
  syndication : Except ExtractError MediaInfo
  guestToken : Except ExtractError (List Char)
  graphqlGuest : Except ExtractError MediaInfo
deriving DecidableEq

/-- `do_extract` (`twitter.rs:52-72`) for a fresh extractor (no cached CSRF
token), as a function of the outcome environment, also recording which
endpoints are contacted and in what order.  With an auth token the
authenticated GraphQL path (CSRF fetch, then GraphQL) is used exclusively;
without one, syndication is tried first, any failure falls through to the
guest-token path, and a guest-token failure aborts. -/
def do_extract (auth_token : Option (List Char)) (url : List Char) (env : TwEnv) :
    Except ExtractError MediaInfo × List TwCall :=
  match statusCapture url with
  | none => (.error (.parse (chars ("Could not extract tweet ID from URL"))), [])
  | some _ =>
    match auth_token with
    | some _ =>
      match env.csrf with
      | .error e => (.error e, [.csrf])
      | .ok _ => (env.graphqlAuth, [.csrf, .graphqlAuth])
    | none =>
      match env.syndication with
      | .ok info => (.ok info, [.syndication])
      | .error _ =>
        match env.guestToken with
        | .error e => (.error e, [.syndication, .guestToken])
        | .ok _ => (env.graphqlGuest, [.syndication, .guestToken, .graphqlGuest])

end Twitter

/-! ## URL matching and the dispatcher — `extractor/mod.rs`,
`extractor/direct.rs`, the `matches` functions of the platform extractors -/

/-- The parts of a parsed `url::Url` the matchers read: `host_str()`,
`path()` and the serialized form `as_str()`. -/
structure ParsedUrl where
  host : Option (List Char)
  path : List Char
  full : List Char
deriving DecidableEq

/-- Model of `url::Url::parse` at the dependency boundary, for absolute
`http(s)` URLs in already-normalized form (lowercase host, explicit path):
scheme, then host up to the first delimiter, then path up to query/fragment. -/
def parseHttpUrl (s : List Char) : Option ParsedUrl :=
  let scheme :=
    if (chars ("https://")).isPrefixOf s then some (s.drop 8)
    else if (chars ("http://")).isPrefixOf s then some (s.drop 7)
    else none
  scheme.bind (fun after =>
    let notDelim := fun c =>
      c != Char.ofNat 47 && c != Char.ofNat 63 && c != Char.ofNat 35 && c != Char.ofNat 58
    let host := after.takeWhile notDelim
    let rest := after.dropWhile notDelim
    if host.isEmpty then none
    else
      let path := rest.takeWhile (fun c => c != Char.ofNat 63 && c != Char.ofNat 35)
      some { host := some host
             path := if path.isEmpty then chars ("/") else path
             full := s })

def isWordCh (c : Char) : Bool :=
  Twitter.isDigitCh c || (65 ≤ c.toNat && c.toNat ≤ 90) || (97 ≤ c.toNat && c.toNat ≤ 122)
    || c = Char.ofNat 95

def headIs (p : Char → Bool) : List Char → Bool
  | c :: _ => p c
  | [] => false

namespace Bilibili

/-- Head test for `VIDEO_REGEX` = `bilibili\.com/video/(BV[\w]+|av\d+)` at one
position. -/
def videoPatAt (l : List Char) : Bool :=
  (chars ("bilibili.com/video/")).isPrefixOf l &&
    (let rest := l.drop 19
     ((chars ("BV")).isPrefixOf rest && headIs isWordCh (rest.drop 2))
       || ((chars ("av")).isPrefixOf rest && headIs Twitter.isDigitCh (rest.drop 2)))

def videoPatFind : List Char → Bool
  | [] => false
  | c :: rest => videoPatAt (c :: rest) || videoPatFind rest

/-- Head test for `SHORT_REGEX` = `b23\.tv/(BV[\w]+|av\d+|\w+)` at one
position. -/
def shortPatAt (l : List Char) : Bool :=
  (chars ("b23.tv/")).isPrefixOf l &&
    (let rest := l.drop 7
     ((chars ("BV")).isPrefixOf rest && headIs isWordCh (rest.drop 2))
       || ((chars ("av")).isPrefixOf rest && headIs Twitter.isDigitCh (rest.drop 2))
       || headIs isWordCh rest)

def shortPatFind : List Char → Bool
  | [] => false
  | c :: rest => shortPatAt (c :: rest) || shortPatFind rest

/-- `BilibiliExtractor::matches` (`bilibili.rs:158-161`); named `matchesUrl`
here because `matches` is reserved in Lean. -/
def matchesUrl (url : ParsedUrl) : Bool :=
  videoPatFind url.full || shortPatFind url.full

end Bilibili

namespace Twitter

/-- `TwitterExtractor::matches` (`twitter.rs:38-44`). -/
def matchesUrl (url : ParsedUrl) : Bool :=
  let host := url.host.getD []
  if !(host = chars ("twitter.com") || host = chars ("x.com")
      || host = chars ("mobile.twitter.com") || host = chars ("mobile.x.com")) then
    false
  else (statusCapture url.full).isSome

end Twitter

namespace Direct

def VIDEO_EXTENSIONS : List (List Char) :=
  [chars ("mp4"), chars ("mkv"), chars ("webm"), chars ("avi"), chars ("mov"),
   chars ("flv"), chars ("m3u8"), chars ("ts")]

def AUDIO_EXTENSIONS : List (List Char) :=
  [chars ("mp3"), chars ("m4a"), chars ("aac"), chars ("flac"), chars ("wav"),
   chars ("ogg"), chars ("opus")]

def IMAGE_EXTENSIONS : List (List Char) :=
  [chars ("jpg"), chars ("jpeg"), chars ("png"), chars ("gif"), chars ("webp"),
   chars ("bmp"), chars ("svg")]

def toLowerCh (c : Char) : Char :=
  if 65 ≤ c.toNat ∧ c.toNat ≤ 90 then Char.ofNat (c.toNat + 32) else c

/-- `DirectExtractor::matches` (`direct.rs:13-18`). -/
def matchesUrl (url : ParsedUrl) : Bool :=
  let path := url.path.map toLowerCh
  VIDEO_EXTENSIONS.any (fun ext => (chars (".") ++ ext).isSuffixOf path)
    || AUDIO_EXTENSIONS.any (fun ext => (chars (".") ++ ext).isSuffixOf path)
    || IMAGE_EXTENSIONS.any (fun ext => (chars (".") ++ ext).isSuffixOf path)

end Direct

/-- Which extractor `extract_media` delegates to. -/
inductive Route
  | twitter
  | direct
  | noExtractor
  | invalidUrl
deriving DecidableEq

/-- The routing of `extract_media` (`extractor/mod.rs:11-34`): parse the URL,
try the Twitter matcher, then the direct-link matcher, else `NoExtractor`.
The Bilibili extractor is never consulted — the module wires in only the
Twitter and direct extractors and leaves Bilibili in a TODO comment. -/
def extract_media_route (url_str : List Char) : Route :=
  match parseHttpUrl url_str with
  | none => .invalidUrl
  | some url =>
    if Twitter.matchesUrl url then .twitter
    else if Direct.matchesUrl url then .direct
    else .noExtractor

namespace Bilibili

/-! ## Bilibili stream selection and WBI signing — `extractor/bilibili.rs` -/

def user_agent : List Char :=
  chars ("Mozilla/5.0 (Macintosh; Intel Mac OS X 10_15_7) AppleWebKit/537.36 (KHTML, like Gecko) Chrome/120.0.0.0 Safari/537.36")

/-- `quality_map` (`bilibili.rs:27-42`). -/
def quality_map (id : Int) : Option (List Char) :=
  if id = 127 then some (chars ("8K"))
  else if id = 126 then some (chars ("Dolby Vision"))
  else if id = 125 then some (chars ("HDR"))
  else if id = 120 then some (chars ("4K"))
  else if id = 116 then some (chars ("1080P60"))
  else if id = 112 then some (chars ("1080P+"))
  else if id = 80 then some (chars ("1080P"))
  else if id = 74 then some (chars ("720P60"))
  else if id = 64 then some (chars ("720P"))
  else if id = 32 then some (chars ("480P"))
  else if id = 16 then some (chars ("360P"))
  else none

/-- `codec_name` (`bilibili.rs:44-51`). -/
def codec_name (codec_id : Int) : List Char :=
  if codec_id = 7 then chars ("AVC")
  else if codec_id = 12 then chars ("HEVC")
  else if codec_id = 13 then chars ("AV1")
  else chars ("Unknown")

structure VideoStream where
  id : Int
  base_url : List Char
  bandwidth : Int
  width : Int
  height : Int
  codecid : Int
deriving DecidableEq

structure AudioStream where
  base_url : List Char
  bandwidth : Int
deriving DecidableEq

structure DashInfo where
  video : List VideoStream
  audio : Option (List AudioStream)
deriving DecidableEq

/-- Rust `Iterator::max_by_key` on `bandwidth`: the last element with maximal
key, or `None` on an empty list. -/
def maxByBandwidth (l : List AudioStream) : Option AudioStream :=
  l.foldl (fun acc a =>
    match acc with
    | none => some a
    | some m => if m.bandwidth ≤ a.bandwidth then some a else some m) none

/-- Rust `as u32` on an `i32` value: two's-complement wrap. -/
def i32ToU32 (i : Int) : Nat := (i % (2 ^ 32 : Int)).toNat

/-- `build_formats` (`bilibili.rs:376-429`): one `Format` per DASH video
stream, carrying the best (highest-bandwidth) audio stream URL and the CDN
headers, sorted by the descending-height/descending-id comparator. -/
def build_formats (streams : DashInfo) : List Format :=
  let headers := [(chars ("Referer"), chars ("https://www.bilibili.com/")),
                  (chars ("User-Agent"), user_agent)]
  let best_audio_url :=
    streams.audio.bind (fun audios => (maxByBandwidth audios).map (fun a => a.base_url))
  let formats := streams.video.map (fun (video : VideoStream) =>
    let quality := (quality_map video.id).getD (intChars video.height ++ chars ("p"))
    let codec := codec_name video.codecid
    ({ id := intChars video.id ++ chars ("_") ++ intChars video.codecid
       url := video.base_url
       ext := chars ("mp4")
       quality := some (quality ++ chars (" [") ++ codec ++ chars ("]"))
       width := some (i32ToU32 video.width)
       height := some (i32ToU32 video.height)
       filesize := none
       audio_url := best_audio_url
       headers := headers } : Format))
  sortBy biliFormatCmp formats

/-- `filter_wbi_value` (`bilibili.rs:477-482`): strip the five literal
characters before URL-encoding. -/
def filter_wbi_value (s : List Char) : List Char :=
  s.filter (fun c => c != Char.ofNat 33 && c != Char.ofNat 39 && c != Char.ofNat 40
    && c != Char.ofNat 41 && c != Char.ofNat 42)

def hexDigitUpper (n : Nat) : Char :=
  if n < 10 then Char.ofNat (48 + n) else Char.ofNat (55 + n)

def hexDigitLower (n : Nat) : Char :=
  if n < 10 then Char.ofNat (48 + n) else Char.ofNat (87 + n)

def isUnreservedCh (c : Char) : Bool :=
  (48 ≤ c.toNat && c.toNat ≤ 57) || (65 ≤ c.toNat && c.toNat ≤ 90)
    || (97 ≤ c.toNat && c.toNat ≤ 122) || c = Char.ofNat 45 || c = Char.ofNat 46
    || c = Char.ofNat 95 || c = Char.ofNat 126

/-- Model of the external `urlencoding::encode` at the dependency boundary:
percent-encode (uppercase hex) every character except the RFC 3986 unreserved
set; the values signed here are ASCII. -/
def urlencode (s : List Char) : List Char :=
  s.foldr (fun c acc =>
    if isUnreservedCh c then c :: acc
    else Char.ofNat 37 :: hexDigitUpper (c.toNat / 16) :: hexDigitUpper (c.toNat % 16) :: acc) []

/-- Executable stand-in for the external `md5` crate digest at the dependency
boundary: a deterministic byte mix rendered as 32 lowercase hex characters
(`format!` with the x flag on the digest).  The signing construction proved
below does not depend on the digest internals, only on this interface. -/
def md5_hex (s : List Char) : List Char :=
  let h := s.foldl (fun a c => (a * 131 + c.toNat + 7) % (2 ^ 128)) 1
  (List.range 32).map (fun i => hexDigitLower (h / 16 ^ (31 - i) % 16))

/-- `BTreeMap` with string keys, modelled as an association list kept sorted
by key; `insert` places (or replaces) a binding at its ordered position. -/
def insertSorted (k v : List Char) :
    List (List Char × List Char) → List (List Char × List Char)
  | [] => [(k, v)]
  | (q, w) :: rest =>
    match chCmp k q with
    | .lt => (k, v) :: (q, w) :: rest
    | .eq => (k, v) :: rest
    | .gt => (q, w) :: insertSorted k v rest

/-- `build_query` (`bilibili.rs:484-490`): key=value pairs of the (sorted)
map, values URL-encoded (not filtered), joined with ampersands. -/
def build_query (params : List (List Char × List Char)) : List Char :=
  List.intercalate (chars ("&"))
    (params.map (fun kv => kv.1 ++ chars ("=") ++ urlencode kv.2))

/-- `wbi_sign` (`bilibili.rs:344-374`), with the ambient wall-clock reading
(`SystemTime::now`, seconds since the epoch) passed in as `wts`.  Without a
mixin key the sorted query is returned unsigned; with one, the timestamp is
inserted as the `wts` parameter, every value is stripped by
`filter_wbi_value` and URL-encoded, the pairs are joined in ascending key
order, and the digest of the query with the key appended becomes the final
`w_rid` parameter. -/
def wbi_sign (wbi_key : Option (List Char)) (wts : Nat)
    (params : List (List Char × List Char)) : List Char :=
  match wbi_key with
  | none => build_query params
  | some key =>
    let params := insertSorted (chars ("wts")) (natChars wts) params
    let query_str := List.intercalate (chars ("&"))
      (params.map (fun kv => kv.1 ++ chars ("=") ++ urlencode (filter_wbi_value kv.2)))
    let signature := md5_hex (query_str ++ key)
    query_str ++ chars ("&w_rid=") ++ signature

/-- The fixed parameter map built by `fetch_play_url` (`bilibili.rs:306-313`)
before signing, for concrete ids. -/
def play_url_params (aid cid : Int) : List (List Char × List Char) :=
  [(chars ("avid"), intChars aid),
   (chars ("cid"), intChars cid),
   (chars ("fnval"), chars ("4048")),
   (chars ("fnver"), chars ("0")),
   (chars ("fourk"), chars ("1")),
   (chars ("qn"), chars ("127"))]

end Bilibili

namespace Downloader

/-! ## Single-stream downloader — `downloader/simple.rs`

The chunked transfer loop is embedded as a state machine over the sequence of
stream events: the response body yields chunks or a stream error, writes can
fail, the cancellation flag is sampled before each chunk, and the wall clock
(`Instant::now`) is read once per iteration.  The filesystem is the content
at the output path (`none` = no file). -/

/-- One `bytes_stream` iteration outcome: a data chunk, a stream error, or a
chunk whose write to the file fails. -/
inductive ChunkEv
  | chunk (data : List Nat)
  | streamErr (msg : List Char)
  | writeErr (msg : List Char)
deriving DecidableEq

/-- `DownloadProgress` (`downloader/mod.rs` via the emitted event): `percent`
is carried as an exact rational standing for the `f64` the code computes; the
claims under verification only inspect the exact literals 0 and 100. -/
structure ProgressEv where
  job_id : List Char
  downloaded : Nat
  total : Option Nat
  speed : ℚ
  percent : ℚ
deriving DecidableEq

/-- Loop state: cumulative bytes, time of last emission (`last_emit`), bytes
at last emission, file content written so far, and the mid-transfer progress
events already emitted (tagged with their emission time). -/
structure DlState where
  downloaded : Nat
  last_emit : Nat
  last_downloaded : Nat
  file : List Nat
  events : List (Nat × ProgressEv)
deriving DecidableEq

/-- Final outcome of `SimpleDownloader::download`: the returned result, the
file at the output path (`none` = absent/deleted), the throttled mid-transfer
progress events in order, the final 100% progress event (success only), and
whether `download-complete` was emitted. -/
structure DlOutcome where
  result : Except (List Char) Unit
  file : Option (List Nat)
  events : List (Nat × ProgressEv)
  finalProgress : Option ProgressEv
  completed : Bool
deriving DecidableEq

/-- The `while let Some(chunk_result) = stream.next()` loop
(`simple.rs:73-112`) plus the post-loop flush/final events
(`simple.rs:114-135`).  Each iteration: sample the cancellation flag — if
set, drop the file handle, delete the file and return the cancellation error;
otherwise surface a stream error, or append the chunk to the file and emit a
progress event when at least 100ms have passed since the last emission.
After the stream is exhausted, emit the 100% progress and the completion
event.  (`remove_file` failures are ignored by the source and modelled as
successful removal.) -/
def dlLoop (jobId : List Char) (total : Option Nat) (cancel : Nat → Bool)
    (times : Nat → Nat) : Nat → List ChunkEv → DlState → DlOutcome
  | _, [], st =>
    let p : ProgressEv :=
      { job_id := jobId, downloaded := st.downloaded, total := total, speed := 0,
        percent := 100 }
    { result := .ok (), file := some st.file, events := st.events,
      finalProgress := some p, completed := true }
  | i, ev :: rest, st =>
    if cancel i then
      { result := .error (chars ("Download cancelled")), file := none,
        events := st.events, finalProgress := none, completed := false }
    else
      match ev with
      | .streamErr msg =>
        { result := .error (chars ("Stream error: ") ++ msg), file := some st.file,
          events := st.events, finalProgress := none, completed := false }
      | .writeErr msg =>
        { result := .error (chars ("Write error: ") ++ msg), file := some st.file,
          events := st.events, finalProgress := none, completed := false }
      | .chunk data =>
        let downloaded := st.downloaded + data.length
        let file := st.file ++ data
        let now := times i
        if 100 ≤ now - st.last_emit then
          let speed : ℚ :=
            ((downloaded - st.last_downloaded : Nat) : ℚ) * 1000 / ((now - st.last_emit : Nat) : ℚ)
          let percent : ℚ :=
            match total with
            | some t => (downloaded : ℚ) / (t : ℚ) * 100
            | none => 0
          let p : ProgressEv :=
            { job_id := jobId, downloaded := downloaded, total := total, speed := speed,
              percent := percent }
          dlLoop jobId total cancel times (i + 1) rest
            { downloaded := downloaded, last_emit := now, last_downloaded := downloaded,
              file := file, events := st.events ++ [(now, p)] }
        else
          dlLoop jobId total cancel times (i + 1) rest
            { downloaded := downloaded, last_emit := st.last_emit,
              last_downloaded := st.last_downloaded, file := file, events := st.events }

/-- `SimpleDownloader::download` (`simple.rs:26-138`) for one request
outcome: a non-2xx status fails before the file is created; otherwise the
file is created empty and the chunk loop runs.  `status` is the response
status success flag and `total` the reported content length. -/
def download (jobId : List Char) (status : Bool) (total : Option Nat)
    (chunks : List ChunkEv) (cancel : Nat → Bool) (times : Nat → Nat) : DlOutcome :=
  if !status then
    { result := .error (chars ("HTTP error")), file := none, events := [],
      finalProgress := none, completed := false }
  else
    dlLoop jobId total cancel times 0 chunks
      { downloaded := 0, last_emit := 0, last_downloaded := 0, file := [], events := [] }

end Downloader

/-! ## Concrete fixtures used by counterexamples and witnesses -/

namespace Twitter

/-- A GraphQL response carrying one video with two `video/mp4` variants of the
same 1280x720 resolution, bitrates 100 and 200 (ids `mp4_100`, `mp4_200`),
in that order. -/
def twoVariantResp : GraphQLResponse :=
  { data := { tweet_result := { result := some (.mk (chars ("Tweet"))
      (some { full_text := chars ("two variants")
              extended_entities := some { media := [
                { type := chars ("video")
                  media_url_https := []
                  original_info := none
                  video_info := some { duration_millis := 0, variants := [
                    { bitrate := some 100, content_type := chars ("video/mp4")
                      url := chars ("https://v.x/vid/1280x720/a.mp4") },
                    { bitrate := some 200, content_type := chars ("video/mp4")
                      url := chars ("https://v.x/vid/1280x720/b.mp4") }] } }] } })
      none none none) } } }

/-- The format list the GraphQL parser returns on `twoVariantResp`. -/
def twoVariantFormats : List Format :=
  match parse_graphql_response twoVariantResp (chars ("1")) with
  | .ok mi => mi.formats
  | .error _ => []

end Twitter

/-- The ordering property claimed for every extractor's format list:
non-increasing height, equal heights tie-broken by descending internal
format id. -/
abbrev claimedFormatOrder (l : List Format) : Prop :=
  List.Pairwise
    (fun a b => heightD b ≤ heightD a ∧ (heightD a = heightD b → chCmp b.id a.id ≠ .gt)) l

end VGet

/-! ## Theorems -/

namespace VGet

namespace Bilibili

theorem rev_alphabet_getD : ∀ d < 58, rev_alphabet (ALPHABET.getD d 0) = d := by
  decide

theorem rev_alphabet_zero : rev_alphabet 0 = 0 := by
  decide

theorem encDigits_length (k tmp : Nat) : (encDigits k tmp).length = k := by
  induction k generalizing tmp with
  | zero => simp [encDigits]
  | succ k ih =>
    rw [encDigits]
    split
    · simp
    · simp [ih]

theorem foldl_dec_replicate (m acc : Nat) :
    List.foldl (fun a b => a * BASE + rev_alphabet b) acc (List.replicate m 0)
      = acc * BASE ^ m := by
  induction m generalizing acc with
  | zero => simp
  | succ m ih =>
    rw [List.replicate_succ, List.foldl_cons, ih, rev_alphabet_zero]
    ring

theorem foldl_encDigits (k : Nat) : ∀ tmp acc, tmp < BASE ^ k →
    List.foldl (fun a b => a * BASE + rev_alphabet b) acc (encDigits k tmp)
      = acc * BASE ^ k + tmp := by
  induction k with
  | zero =>
    intro tmp acc h
    have : tmp = 0 := by simpa using Nat.lt_one_iff.mp (by simpa [BASE] using h)
    simp [encDigits, this]
  | succ k ih =>
    intro tmp acc h
    rw [encDigits]
    split
    · rename_i h0
      rw [foldl_dec_replicate, h0]
      simp
    · rename_i h0
      have hdiv : tmp / BASE < BASE ^ k := by
        rw [Nat.div_lt_iff_lt_mul (by norm_num [BASE])]
        calc tmp < BASE ^ (k + 1) := h
          _ = BASE ^ k * BASE := by rw [pow_succ]
      rw [List.foldl_append, ih (tmp / BASE) acc hdiv]
      have hm : tmp % BASE < 58 := Nat.mod_lt _ (by norm_num [BASE])
      simp only [List.foldl_cons, List.foldl_nil]
      rw [rev_alphabet_getD _ hm, pow_succ, ← mul_assoc]
      generalize acc * BASE ^ k = y
      show (y + tmp / BASE) * BASE + tmp % BASE = y * BASE + tmp
      simp only [BASE]
      omega

theorem list_len9 (l : List Nat) (hl : l.length = 9) :
    ∃ b0 b1 b2 b3 b4 b5 b6 b7 b8, l = [b0, b1, b2, b3, b4, b5, b6, b7, b8] := by
  obtain _ | ⟨b0, l⟩ := l
  · simp at hl
  obtain _ | ⟨b1, l⟩ := l
  · simp at hl
  obtain _ | ⟨b2, l⟩ := l
  · simp at hl
  obtain _ | ⟨b3, l⟩ := l
  · simp at hl
  obtain _ | ⟨b4, l⟩ := l
  · simp at hl
  obtain _ | ⟨b5, l⟩ := l
  · simp at hl
  obtain _ | ⟨b6, l⟩ := l
  · simp at hl
  obtain _ | ⟨b7, l⟩ := l
  · simp at hl
  obtain _ | ⟨b8, l⟩ := l
  · simp at hl
  obtain _ | ⟨b9, l⟩ := l
  · exact ⟨b0, b1, b2, b3, b4, b5, b6, b7, b8, rfl⟩
  · simp at hl

theorem mask_xor_or_identity (n X : Nat) (hn : n < 2 ^ 51) (hX : X < 2 ^ 51) :
    (((2 ^ 51 ||| n) ^^^ X) &&& (2 ^ 51 - 1)) ^^^ X = n := by
  apply Nat.eq_of_testBit_eq
  intro i
  simp only [Nat.testBit_xor, Nat.testBit_and, Nat.testBit_or,
    Nat.testBit_two_pow_sub_one, Nat.testBit_two_pow]
  by_cases h : i < 51
  · have h51 : ¬(51 = i) := by omega
    rw [decide_eq_true h, decide_eq_false h51]
    simp only [Bool.and_true, Bool.false_or]
    cases n.testBit i <;> cases X.testBit i <;> rfl
  · have hle : (2 : Nat) ^ 51 ≤ 2 ^ i := Nat.pow_le_pow_right (by norm_num) (by omega)
    have hnb : n.testBit i = false := Nat.testBit_lt_two_pow (lt_of_lt_of_le hn hle)
    have hXb : X.testBit i = false := Nat.testBit_lt_two_pow (lt_of_lt_of_le hX hle)
    simp [h, hnb, hXb]

theorem tmp_lt_base_pow (n : Nat) (hn : n < 2 ^ 51) :
    (2 ^ 51 ||| n) ^^^ XOR_CODE < BASE ^ 9 := by
  have h1 : (2 ^ 51 ||| n) < 2 ^ 52 :=
    Nat.or_lt_two_pow (by norm_num) (lt_trans hn (by norm_num))
  have h2 : (2 ^ 51 ||| n) ^^^ XOR_CODE < 2 ^ 52 :=
    Nat.xor_lt_two_pow h1 (by norm_num [XOR_CODE])
  calc (2 ^ 51 ||| n) ^^^ XOR_CODE < 2 ^ 52 := h2
    _ ≤ BASE ^ 9 := by norm_num [BASE]

theorem strBytes_BV1 : strBytes ("BV1") = [66, 86, 49] := by decide

theorem bvCore_BV1 (rest : List Nat) : bvCore (strBytes ("BV1") ++ rest) = rest := by
  rw [bvCore, if_pos]
  · rw [strBytes_BV1]
    rfl
  · rw [strBytes_BV1]
    rfl

theorem MAX_AID_eq : MAX_AID = 2 ^ 51 := by decide

/-- The core of the encode-then-decode round trip, stated over the embedded
functions: a valid numeric id is recovered exactly by `bv_to_av` from the
byte string `av_to_bv` produces. -/
theorem decode_encode (n : Int) (b : List Nat) (h1 : 1 ≤ n) (h2 : n < 2 ^ 51)
    (henc : av_to_bv n = .ok b) : bv_to_av b = .ok n := by
  rw [av_to_bv, if_neg (by omega),
    if_neg (by rw [show ((MAX_AID : Nat) : Int) = 2 ^ 51 by norm_num [MAX_AID_eq]]; omega)]
    at henc
  have hb : strBytes ("BV1")
      ++ lswap (lswap (encDigits BV_LEN ((MAX_AID ||| n.toNat) ^^^ XOR_CODE)) 0 6) 1 4
      = b := Except.ok.inj henc
  clear henc
  set nn : Nat := n.toNat with hnn
  have hnlt : nn < 2 ^ 51 := by omega
  have hmax : MAX_AID ||| nn = 2 ^ 51 ||| nn := by rw [MAX_AID_eq]
  set tmp : Nat := (MAX_AID ||| nn) ^^^ XOR_CODE with htmp
  have htmplt : tmp < BASE ^ 9 := by
    rw [htmp, hmax]
    exact tmp_lt_base_pow nn hnlt
  have hD := encDigits_length BV_LEN tmp
  obtain ⟨d0, d1, d2, d3, d4, d5, d6, d7, d8, hDeq⟩ := list_len9 _ hD
  rw [hDeq] at hb
  have hswap : lswap (lswap [d0, d1, d2, d3, d4, d5, d6, d7, d8] 0 6) 1 4
      = [d6, d4, d2, d3, d1, d5, d0, d7, d8] := rfl
  rw [hswap] at hb
  rw [← hb, bv_to_av, bvCore_BV1]
  rw [if_neg (by simp [BV_LEN])]
  have hunswap : lswap (lswap [d6, d4, d2, d3, d1, d5, d0, d7, d8] 0 6) 1 4
      = [d0, d1, d2, d3, d4, d5, d6, d7, d8] := rfl
  rw [hunswap, ← hDeq]
  show Except.ok
      (((List.foldl (fun a b => a * BASE + rev_alphabet b) 0 (encDigits BV_LEN tmp))
        &&& MASK_CODE ^^^ XOR_CODE : Nat) : Int) = Except.ok n
  rw [foldl_encDigits BV_LEN tmp 0 htmplt]
  simp only [Nat.zero_mul, Nat.zero_add]
  rw [htmp, hmax]
  have hX : XOR_CODE < 2 ^ 51 := by norm_num [XOR_CODE]
  rw [show MASK_CODE = 2 ^ 51 - 1 from rfl]
  rw [mask_xor_or_identity nn XOR_CODE hnlt hX]
  congr 1
  omega

/-- Claim C1: BV/AV id round trip.  (i) For every numeric id `n` with
`1 ≤ n < 2^51`, decoding the id encoded by `av_to_bv` yields `n` back;
(ii) consequently, for every well-formed encoded id (one produced by the
encoder), re-encoding the decoded numeric id reproduces it; (iii) in
particular the round trip holds for the concrete id `"BV1xx411c7mD"`. -/
theorem bv_av_id_roundtrip :
    (∀ (n : Int) (b : List Nat), 1 ≤ n → n < 2 ^ 51 →
      av_to_bv n = .ok b → bv_to_av b = .ok n)
    ∧ (∀ (n : Int) (b : List Nat), 1 ≤ n → n < 2 ^ 51 →
      av_to_bv n = .ok b → (bv_to_av b).bind av_to_bv = .ok b)
    ∧ (bv_to_av (strBytes ("BV1xx411c7mD"))).bind av_to_bv
        = .ok (strBytes ("BV1xx411c7mD")) := by
  refine ⟨decode_encode, ?_, ?_⟩
  · intro n b h1 h2 henc
    rw [decode_encode n b h1 h2 henc]
    simpa using henc
  · have h2 : av_to_bv 2 = .ok (strBytes ("BV1xx411c7mD")) := by decide
    rw [decode_encode 2 _ (by norm_num) (by norm_num) h2]
    simpa using h2

/-- Witness for C1 at the concrete id of the spec's example scenario:
`"BV1xx411c7mD"` decodes to the numeric id 2 (and hypotheses hold at 2). -/
theorem bv_av_id_roundtrip_witness :
    1 ≤ (2 : Int) ∧ (2 : Int) < 2 ^ 51
      ∧ bv_to_av (strBytes ("BV1xx411c7mD")) = .ok 2 :=
  ⟨by norm_num, by norm_num,
    bv_av_id_roundtrip.1 2 (strBytes ("BV1xx411c7mD")) (by norm_num) (by norm_num)
      (by decide)⟩

/-- Claim C7: domain rejection of the id codec.  `av_to_bv` returns an error
for every `n < 1` and every `n ≥ 2^51`; `bv_to_av` returns an error for every
input whose core after prefix stripping is not exactly 9 bytes long. -/
theorem codec_domain_rejection :
    (∀ n : Int, n < 1 → (av_to_bv n).isOk = false)
    ∧ (∀ n : Int, (2 ^ 51 : Int) ≤ n → (av_to_bv n).isOk = false)
    ∧ (∀ b : List Nat, (bvCore b).length ≠ 9 → (bv_to_av b).isOk = false) := by
  refine ⟨?_, ?_, ?_⟩
  · intro n h
    rw [av_to_bv, if_pos h]
    rfl
  · intro n h
    rw [av_to_bv, if_neg (by omega),
      if_pos (by rw [show ((MAX_AID : Nat) : Int) = 2 ^ 51 by norm_num [MAX_AID_eq]]; omega)]
    rfl
  · intro b h
    rw [bv_to_av, if_pos (by simpa [BV_LEN] using h)]
    rfl

/-- Witness for C7 at `n = 0`, `n = 2^51` and the empty byte string. -/
theorem codec_domain_rejection_witness :
    (av_to_bv 0).isOk = false ∧ (av_to_bv (2 ^ 51)).isOk = false
      ∧ (bv_to_av []).isOk = false :=
  ⟨codec_domain_rejection.1 0 (by norm_num),
    codec_domain_rejection.2.1 (2 ^ 51) (by norm_num),
    codec_domain_rejection.2.2 [] (by decide)⟩

theorem getD_mem_alphabet (i : Nat) (hi : i < 58) : ALPHABET.getD i 0 ∈ ALPHABET := by
  have hlen : ALPHABET.length = 58 := by decide
  have hi' : i < ALPHABET.length := by omega
  rw [List.getD_eq_getElem?_getD, List.getElem?_eq_getElem hi', Option.getD_some]
  exact List.getElem_mem hi'

theorem foldl_rev_keep (c : Nat) (hc : c ∉ ALPHABET) :
    ∀ (l : List Nat) (acc : Nat), (∀ i ∈ l, i < 58) →
      List.foldl (fun acc i => if ALPHABET.getD i 0 = c then i else acc) acc l = acc := by
  intro l
  induction l with
  | nil => intro acc _; rfl
  | cons x xs ih =>
    intro acc hmem
    have hx : x < 58 := hmem x (by simp)
    have hne : ¬(ALPHABET.getD x 0 = c) := fun he => hc (he ▸ getD_mem_alphabet x hx)
    rw [List.foldl_cons, if_neg hne]
    exact ih acc (fun i hi => hmem i (by simp [hi]))

/-- Claim C9 (implicit): `bv_to_av` is total on 9-byte cores — every input
whose core after prefix stripping has exactly 9 bytes decodes to `Ok`
(the embedded function is total, mirroring the panic-free Rust path), and any
byte outside the 58-symbol alphabet reads as digit value 0 through the
zero-initialised reverse lookup table. -/
theorem bv_decode_total :
    (∀ b : List Nat, (bvCore b).length = 9 → (bv_to_av b).isOk = true)
    ∧ (∀ c : Nat, c ∉ ALPHABET → rev_alphabet c = 0) := by
  constructor
  · intro b h
    rw [bv_to_av, if_neg (by simp [BV_LEN, h])]
    rfl
  · intro c hc
    rw [rev_alphabet]
    exact foldl_rev_keep c hc (List.range 58) 0 (by simp)

/-- Witness for C9: a BV id whose 9-byte core consists of bytes (`!`) outside
the alphabet still decodes to `Ok`, and byte 33 (`!`) reads as digit 0. -/
theorem bv_decode_total_witness :
    (bv_to_av (strBytes ("BV1!!!!!!!!!"))).isOk = true ∧ rev_alphabet 33 = 0 :=
  ⟨bv_decode_total.1 (strBytes ("BV1!!!!!!!!!")) (by decide),
    bv_decode_total.2 33 (by decide)⟩

end Bilibili

/-- Claim C2 (code-bug evidence): URLs matching the Bilibili extractor's
pattern are NOT delegated to it — `extract_media` only wires in the Twitter
and direct-link extractors, so a Bilibili video URL (and a b23.tv short link)
falls through to `NoExtractor` even though `BilibiliExtractor::matches`
accepts it. -/
theorem dispatcher_bilibili_unreachable :
    (parseHttpUrl (chars ("https://www.bilibili.com/video/BV1xx411c7mD"))).map
        Bilibili.matchesUrl = some true
    ∧ extract_media_route (chars ("https://www.bilibili.com/video/BV1xx411c7mD"))
        = Route.noExtractor
    ∧ (parseHttpUrl (chars ("https://b23.tv/BV1xx411c7mD"))).map
        Bilibili.matchesUrl = some true
    ∧ extract_media_route (chars ("https://b23.tv/BV1xx411c7mD")) = Route.noExtractor := by
  exact ⟨by decide, by decide, by decide, by decide⟩

namespace Twitter

/-- Claim C5: tiered resolution of the Twitter extractor.  With an auth token
the authenticated GraphQL path is used exclusively (the syndication,
guest-token and guest GraphQL endpoints are never contacted; a CSRF failure
aborts rather than falling back); without one, syndication is tried first and
its success is returned, any syndication failure falls through silently to
the guest-token GraphQL path, and a guest-token failure aborts the
extraction with that error. -/
theorem twitter_tiered_resolution :
    (∀ tok url env,
      TwCall.syndication ∉ (do_extract (some tok) url env).2
      ∧ TwCall.guestToken ∉ (do_extract (some tok) url env).2
      ∧ TwCall.graphqlGuest ∉ (do_extract (some tok) url env).2)
    ∧ (∀ tok url env, (statusCapture url).isSome = true → env.csrf.isOk = true →
        (do_extract (some tok) url env).1 = env.graphqlAuth)
    ∧ (∀ tok url env e, (statusCapture url).isSome = true → env.csrf = .error e →
        (do_extract (some tok) url env).1 = .error e)
    ∧ (∀ url env info, (statusCapture url).isSome = true → env.syndication = .ok info →
        (do_extract none url env).1 = .ok info)
    ∧ (∀ url env e, (statusCapture url).isSome = true → env.syndication = .error e →
        env.guestToken.isOk = true →
        (do_extract none url env).1 = env.graphqlGuest)
    ∧ (∀ url env e ge, (statusCapture url).isSome = true → env.syndication = .error e →
        env.guestToken = .error ge →
        (do_extract none url env).1 = .error ge) := by
  refine ⟨?_, ?_, ?_, ?_, ?_, ?_⟩
  · intro tok url env
    rw [do_extract]
    cases statusCapture url
    · simp
    · cases henv : env.csrf <;> simp
  · intro tok url env hcap hcsrf
    rw [do_extract]
    cases hc : statusCapture url
    · rw [hc] at hcap
      simp at hcap
    · cases henv : env.csrf
      · rw [henv] at hcsrf
        simp [Except.isOk, Except.toBool] at hcsrf
      · simp [henv]
  · intro tok url env e hcap hcsrf
    rw [do_extract]
    cases hc : statusCapture url
    · rw [hc] at hcap
      simp at hcap
    · simp [hcsrf]
  · intro url env info hcap hsyn
    rw [do_extract]
    cases hc : statusCapture url
    · rw [hc] at hcap
      simp at hcap
    · simp [hsyn]
  · intro url env e hcap hsyn hguest
    rw [do_extract]
    cases hc : statusCapture url
    · rw [hc] at hcap
      simp at hcap
    · cases hg : env.guestToken
      · rw [hg] at hguest
        simp [Except.isOk, Except.toBool] at hguest
      · simp [hsyn, hg]
  · intro url env e ge hcap hsyn hguest
    rw [do_extract]
    cases hc : statusCapture url
    · rw [hc] at hcap
      simp at hcap
    · simp [hsyn, hguest]

/-- Witness for C5 at a concrete URL and environment: with an auth token the
result is the authenticated GraphQL outcome; without one and with a failing
syndication endpoint but a working guest token, the result is the guest
GraphQL outcome. -/
theorem twitter_tiered_resolution_witness :
    (do_extract (some (chars ("tok"))) (chars ("https://x.com/u/status/1"))
      { csrf := .ok (chars ("c"))
        graphqlAuth := .error .notAvailable
        syndication := .ok { id := [], title := [], uploader := none, thumbnail := none,
                             duration := none, media_type := .video, formats := [] }
        guestToken := .ok (chars ("g"))
        graphqlGuest := .error .authRequired }).1 = .error .notAvailable
    ∧ (do_extract none (chars ("https://x.com/u/status/1"))
      { csrf := .ok (chars ("c"))
        graphqlAuth := .error .notAvailable
        syndication := .error .notAvailable
        guestToken := .ok (chars ("g"))
        graphqlGuest := .error .authRequired }).1 = .error .authRequired := by
  constructor
  · exact twitter_tiered_resolution.2.1 (chars ("tok")) _ _ (by decide) (by decide)
  · exact twitter_tiered_resolution.2.2.2.2.1 _ _ ExtractError.notAvailable
      (by decide) (by decide) (by decide)

theorem replaceNl_no_newline (s : List Char) : Char.ofNat 10 ∉ replaceNl s := by
  intro hmem
  obtain ⟨c, _, hc⟩ := List.mem_map.mp hmem
  by_cases h : c = Char.ofNat 10
  · rw [if_pos h] at hc
    exact absurd hc (by decide)
  · rw [if_neg h] at hc
    exact h hc

theorem truncate_text_parts (s : List Char) :
    (truncate_text s 100).length ≤ 100 ∧ Char.ofNat 10 ∉ truncate_text s 100
      ∧ (100 < (replaceNl s).length →
          truncate_text s 100 = (replaceNl s).take 97 ++ chars ("...")) := by
  have hdots : (chars ("...")).length = 3 := by decide
  rw [truncate_text]
  split
  · rename_i hle
    refine ⟨hle, replaceNl_no_newline s, ?_⟩
    intro hgt
    omega
  · rename_i hgt
    refine ⟨?_, ?_, fun _ => rfl⟩
    · simp [List.length_append, List.length_take, hdots]
    · intro hmem
      rcases List.mem_append.mp hmem with hm | hm
      · exact replaceNl_no_newline s (List.mem_of_mem_take hm)
      · revert hm
        decide

/-- On the `Ok` path the syndication parser's title is exactly the truncated
tweet text. -/
theorem parse_syndication_title (data : SyndicationResponse) (tid : List Char)
    (info : MediaInfo) (h : parse_syndication_response data tid = .ok info) :
    info.title = truncate_text data.text 100 := by
  rw [parse_syndication_response] at h
  repeat' split at h
  all_goals first
    | exact Except.noConfusion h
    | exact (congrArg MediaInfo.title (Except.ok.inj h)).symm

/-- On the `Ok` path the GraphQL parser's title is exactly the truncated
`full_text` of the (possibly `tweet`-nested) legacy payload. -/
theorem parse_graphql_title (resp : GraphQLResponse) (tid : List Char)
    (info : MediaInfo) (result : GraphQLResult) (legacy : GraphQLLegacy)
    (hres : resp.data.tweet_result.result = some result)
    (hleg : result.legacy.orElse (fun _ => result.tweet.bind GraphQLResult.legacy)
      = some legacy)
    (h : parse_graphql_response resp tid = .ok info) :
    info.title = truncate_text legacy.full_text 100 := by
  rw [parse_graphql_response, hres] at h
  dsimp only at h
  rw [hleg] at h
  dsimp only at h
  repeat' split at h
  all_goals first
    | exact Except.noConfusion h
    | exact (congrArg MediaInfo.title (Except.ok.inj h)).symm

/-- Claim C10 (implicit): Twitter title normalization.  Every title either
parser produces is `truncate_text text 100`: at most 100 characters, no
newline characters, and when the newline-replaced text exceeds 100
characters the title is its first 97 characters followed by `...`. -/
theorem twitter_title_normalization :
    (∀ s : List Char, (truncate_text s 100).length ≤ 100)
    ∧ (∀ s : List Char, Char.ofNat 10 ∉ truncate_text s 100)
    ∧ (∀ s : List Char, 100 < (replaceNl s).length →
        truncate_text s 100 = (replaceNl s).take 97 ++ chars ("..."))
    ∧ (∀ data tid info, parse_syndication_response data tid = .ok info →
        info.title = truncate_text data.text 100)
    ∧ (∀ resp tid info result legacy,
        resp.data.tweet_result.result = some result →
        result.legacy.orElse (fun _ => result.tweet.bind GraphQLResult.legacy)
          = some legacy →
        parse_graphql_response resp tid = .ok info →
        info.title = truncate_text legacy.full_text 100) :=
  ⟨fun s => (truncate_text_parts s).1,
   fun s => (truncate_text_parts s).2.1,
   fun s => (truncate_text_parts s).2.2,
   parse_syndication_title,
   fun resp tid info result legacy hres hleg h =>
     parse_graphql_title resp tid info result legacy hres hleg h⟩

/-- Witness for C10: a 110-character text truncates to its first 97
characters plus `...`, and on the two-variant fixture the GraphQL parser's
title is the truncation of the fixture's text. -/
theorem twitter_title_normalization_witness :
    truncate_text (List.replicate 110 (Char.ofNat 97)) 100
      = (replaceNl (List.replicate 110 (Char.ofNat 97))).take 97 ++ chars ("...")
    ∧ (∀ info, parse_graphql_response twoVariantResp (chars ("1")) = .ok info →
        info.title = truncate_text (chars ("two variants")) 100) := by
  constructor
  · exact twitter_title_normalization.2.2.1 _ (by decide)
  · intro info h
    exact twitter_title_normalization.2.2.2.2 twoVariantResp (chars ("1")) info
      _ _ rfl rfl h

end Twitter

namespace Downloader

theorem stream_msg_ne (msg : List Char) :
    chars ("Stream error: ") ++ msg ≠ chars ("Download cancelled") := by
  intro h
  have h1 : Char.ofNat 83 :: (chars ("tream error: ") ++ msg)
      = Char.ofNat 68 :: chars ("ownload cancelled") := h
  exact absurd ((List.cons.injEq _ _ _ _).mp h1).1 (by decide)

theorem write_msg_ne (msg : List Char) :
    chars ("Write error: ") ++ msg ≠ chars ("Download cancelled") := by
  intro h
  have h1 : Char.ofNat 87 :: (chars ("rite error: ") ++ msg)
      = Char.ofNat 68 :: chars ("ownload cancelled") := h
  exact absurd ((List.cons.injEq _ _ _ _).mp h1).1 (by decide)

/-- File-state invariant of the chunk loop: a cancellation error means the
file was deleted; any other error leaves the partial file in place. -/
theorem dlLoop_file (jobId : List Char) (total : Option Nat) (cancel : Nat → Bool)
    (times : Nat → Nat) :
    ∀ (chunks : List ChunkEv) (i : Nat) (st : DlState),
      ((dlLoop jobId total cancel times i chunks st).result
          = .error (chars ("Download cancelled")) →
        (dlLoop jobId total cancel times i chunks st).file = none)
      ∧ (∀ e, (dlLoop jobId total cancel times i chunks st).result = .error e →
          e ≠ chars ("Download cancelled") →
          (dlLoop jobId total cancel times i chunks st).file.isSome = true) := by
  intro chunks
  induction chunks with
  | nil =>
    intro i st
    constructor
    · intro h
      exact Except.noConfusion (show Except.ok () = Except.error _ from h)
    · intro e h
      exact absurd (show Except.ok () = Except.error e from h) (by simp)
  | cons ev rest ih =>
    intro i st
    rw [dlLoop.eq_def]
    dsimp only
    by_cases hc : cancel i = true
    · rw [if_pos hc]
      exact ⟨fun _ => rfl, fun e he hne => absurd (Except.error.inj he).symm hne⟩
    · rw [if_neg hc]
      cases ev with
      | streamErr msg =>
        exact ⟨fun h => absurd (Except.error.inj h) (stream_msg_ne msg),
          fun e _ _ => rfl⟩
      | writeErr msg =>
        exact ⟨fun h => absurd (Except.error.inj h) (write_msg_ne msg),
          fun e _ _ => rfl⟩
      | chunk data =>
        dsimp only
        split
        · exact ih (i + 1) _
        · exact ih (i + 1) _

/-- Claim C4: single-stream cancellation cleanup.  A download that fails with
the cancellation error leaves no file at the output path (the partial file is
deleted as part of returning that error, shown concretely by the third
conjunct); a download that fails with any other error after the transfer
started (genuine stream or write failure) leaves the partial file in place. -/
theorem cancellation_cleanup :
    (∀ jobId status total chunks cancel times,
        (download jobId status total chunks cancel times).result
            = .error (chars ("Download cancelled")) →
        (download jobId status total chunks cancel times).file = none)
    ∧ (∀ jobId total chunks cancel times e,
        (download jobId true total chunks cancel times).result = .error e →
        e ≠ chars ("Download cancelled") →
        (download jobId true total chunks cancel times).file.isSome = true)
    ∧ (∀ jobId total ev rest cancel times, cancel 0 = true →
        download jobId true total (ev :: rest) cancel times
          = { result := .error (chars ("Download cancelled")), file := none,
              events := [], finalProgress := none, completed := false }) := by
  refine ⟨?_, ?_, ?_⟩
  · intro jobId status total chunks cancel times h
    cases status with
    | false =>
      rw [download] at h ⊢
      exact absurd (Except.error.inj h) (by decide)
    | true =>
      rw [download] at h ⊢
      exact (dlLoop_file jobId total cancel times chunks 0 _).1 h
  · intro jobId total chunks cancel times e h hne
    rw [download] at h ⊢
    exact (dlLoop_file jobId total cancel times chunks 0 _).2 e h hne
  · intro jobId total ev rest cancel times h
    rw [download]
    simp only [Bool.not_true, Bool.false_eq_true, if_false, dlLoop, h, if_true]

/-- Witness for C4: cancelling at the first chunk deletes the file and
returns the cancellation error; a stream failure leaves the partial file. -/
theorem cancellation_cleanup_witness :
    (download (chars ("j")) true none [ChunkEv.chunk [1]] (fun _ => true)
        (fun _ => 0)).file = none
    ∧ (download (chars ("j")) true none
        [ChunkEv.chunk [1], ChunkEv.streamErr (chars ("reset"))] (fun _ => false)
        (fun _ => 0)).file.isSome = true := by
  constructor
  · exact cancellation_cleanup.1 (chars ("j")) true none [ChunkEv.chunk [1]]
      (fun _ => true) (fun _ => 0) (by decide)
  · exact cancellation_cleanup.2.1 (chars ("j")) none
      [ChunkEv.chunk [1], ChunkEv.streamErr (chars ("reset"))] (fun _ => false)
      (fun _ => 0) (chars ("Stream error: reset")) (by decide) (by decide)

/-- Event-stream invariants of the chunk loop: mid-transfer events have
non-decreasing byte counts bounded by the current total, their emission times
are at least 100ms apart and bounded by `last_emit`, percent is 0 throughout
when no content length was reported, and the final progress event (present
exactly on the success path) carries percent 100 and dominates every
mid-transfer byte count. -/
theorem dlLoop_events (jobId : List Char) (total : Option Nat) (cancel : Nat → Bool)
    (times : Nat → Nat) :
    ∀ (chunks : List ChunkEv) (i : Nat) (st : DlState),
      List.Chain' (fun p q : Nat × ProgressEv => p.2.downloaded ≤ q.2.downloaded) st.events →
      (∀ p ∈ st.events, p.2.downloaded ≤ st.downloaded) →
      List.Chain' (fun p q : Nat × ProgressEv => p.1 + 100 ≤ q.1) st.events →
      (∀ p ∈ st.events, p.1 ≤ st.last_emit) →
      (total = none → ∀ p ∈ st.events, p.2.percent = 0) →
      (List.Chain' (fun p q : Nat × ProgressEv => p.2.downloaded ≤ q.2.downloaded)
          (dlLoop jobId total cancel times i chunks st).events
        ∧ List.Chain' (fun p q : Nat × ProgressEv => p.1 + 100 ≤ q.1)
            (dlLoop jobId total cancel times i chunks st).events
        ∧ (total = none →
            ∀ p ∈ (dlLoop jobId total cancel times i chunks st).events, p.2.percent = 0)
        ∧ (∀ fp, (dlLoop jobId total cancel times i chunks st).finalProgress = some fp →
            fp.percent = 100
              ∧ ∀ p ∈ (dlLoop jobId total cancel times i chunks st).events,
                  p.2.downloaded ≤ fp.downloaded)
        ∧ ((dlLoop jobId total cancel times i chunks st).result = .ok () →
            (dlLoop jobId total cancel times i chunks st).finalProgress.isSome = true)) := by
  intro chunks
  induction chunks with
  | nil =>
    intro i st h1 h2 h3 h4 h5
    refine ⟨h1, h3, h5, ?_, fun _ => rfl⟩
    intro fp hfp
    have hfpe : fp = ProgressEv.mk jobId st.downloaded total 0 100 :=
      (Option.some.inj hfp).symm
    subst hfpe
    exact ⟨rfl, h2⟩
  | cons ev rest ih =>
    intro i st h1 h2 h3 h4 h5
    rw [dlLoop.eq_def]
    dsimp only
    by_cases hc : cancel i = true
    · rw [if_pos hc]
      exact ⟨h1, h3, h5, fun fp hfp => Option.noConfusion hfp, fun h => Except.noConfusion h⟩
    · rw [if_neg hc]
      cases ev with
      | streamErr msg =>
        exact ⟨h1, h3, h5, fun fp hfp => Option.noConfusion hfp, fun h => Except.noConfusion h⟩
      | writeErr msg =>
        exact ⟨h1, h3, h5, fun fp hfp => Option.noConfusion hfp, fun h => Except.noConfusion h⟩
      | chunk data =>
        dsimp only
        split
        · rename_i h100
          apply ih (i + 1)
          · rw [List.chain'_append]
            refine ⟨h1, List.chain'_singleton _, ?_⟩
            intro x hx y hy
            rw [List.head?_cons, Option.mem_some_iff] at hy
            subst hy
            exact le_trans (h2 x (List.mem_of_mem_getLast? hx)) (Nat.le_add_right _ _)
          · intro p hp
            rcases List.mem_append.mp hp with hm | hm
            · exact le_trans (h2 p hm) (Nat.le_add_right _ _)
            · rw [List.mem_singleton] at hm
              subst hm
              exact le_refl _
          · rw [List.chain'_append]
            refine ⟨h3, List.chain'_singleton _, ?_⟩
            intro x hx y hy
            rw [List.head?_cons, Option.mem_some_iff] at hy
            subst hy
            have hxt := h4 x (List.mem_of_mem_getLast? hx)
            simp only
            omega
          · intro p hp
            rcases List.mem_append.mp hp with hm | hm
            · have := h4 p hm
              simp only
              omega
            · rw [List.mem_singleton] at hm
              subst hm
              exact le_refl _
          · intro htot p hp
            rcases List.mem_append.mp hp with hm | hm
            · exact h5 htot p hm
            · rw [List.mem_singleton] at hm
              subst hm
              subst htot
              rfl
        · apply ih (i + 1)
          · exact h1
          · intro p hp
            exact le_trans (h2 p hp) (Nat.le_add_right _ _)
          · exact h3
          · exact h4
          · exact h5

/-- Claim C8: the progress event stream of a single-stream download.
Consecutive progress events carry non-decreasing `downloaded` counts (the
final 100% event included); mid-transfer events are emitted at least 100ms of
wall-clock time apart; when the server reported no content length every
mid-transfer event carries `percent = 0`; and a successful download ends with
a final progress event whose `percent` is exactly 100. -/
theorem progress_event_stream :
    ∀ jobId status total chunks cancel times,
      List.Chain' (fun p q : ProgressEv => p.downloaded ≤ q.downloaded)
        (((download jobId status total chunks cancel times).events.map Prod.snd)
          ++ (download jobId status total chunks cancel times).finalProgress.toList)
      ∧ List.Chain' (fun p q : Nat × ProgressEv => p.1 + 100 ≤ q.1)
          (download jobId status total chunks cancel times).events
      ∧ (total = none →
          ∀ p ∈ (download jobId status total chunks cancel times).events, p.2.percent = 0)
      ∧ ((download jobId status total chunks cancel times).result = .ok () →
          ∃ fp, (download jobId status total chunks cancel times).finalProgress = some fp
            ∧ fp.percent = 100) := by
  intro jobId status total chunks cancel times
  cases status with
  | false =>
    have hD : download jobId false total chunks cancel times
        = { result := .error (chars ("HTTP error")), file := none, events := [],
            finalProgress := none, completed := false } := rfl
    rw [hD]
    exact ⟨List.chain'_nil, List.chain'_nil, fun _ p hp => absurd hp (List.not_mem_nil p),
      fun h => Except.noConfusion h⟩
  | true =>
    have hD : download jobId true total chunks cancel times
        = dlLoop jobId total cancel times 0 chunks
            { downloaded := 0, last_emit := 0, last_downloaded := 0, file := [],
              events := [] } := rfl
    rw [hD]
    have hinv := dlLoop_events jobId total cancel times chunks 0
      { downloaded := 0, last_emit := 0, last_downloaded := 0, file := [], events := [] }
      List.chain'_nil (fun p hp => absurd hp (List.not_mem_nil p)) List.chain'_nil
      (fun p hp => absurd hp (List.not_mem_nil p))
      (fun _ p hp => absurd hp (List.not_mem_nil p))
    obtain ⟨hmono, hgap, hpct, hfin, hok⟩ := hinv
    refine ⟨?_, hgap, hpct, ?_⟩
    · cases hfp : (dlLoop jobId total cancel times 0 chunks
          { downloaded := 0, last_emit := 0, last_downloaded := 0, file := [],
            events := [] }).finalProgress with
      | none =>
        rw [Option.toList_none, List.append_nil]
        exact List.chain'_map_of_chain' Prod.snd (fun a b h => h) hmono
      | some fp =>
        rw [Option.toList_some]
        rw [List.chain'_append]
        refine ⟨List.chain'_map_of_chain' Prod.snd (fun a b h => h) hmono,
          List.chain'_singleton _, ?_⟩
        intro x hx y hy
        rw [List.head?_cons, Option.mem_some_iff] at hy
        subst hy
        have hxmem := List.mem_of_mem_getLast? hx
        obtain ⟨p, hpmem, hpx⟩ := List.mem_map.mp hxmem
        subst hpx
        exact (hfin fp hfp).2 p hpmem
    · intro h
      have := hok h
      obtain ⟨fp, hfp⟩ := Option.isSome_iff_exists.mp this
      exact ⟨fp, hfp, (hfin fp hfp).1⟩

/-- Witness for C8 on a concrete run with unknown content length: the single
mid-transfer event has percent 0 and the final event percent 100. -/
theorem progress_event_stream_witness :
    (∀ p ∈ (download (chars ("j")) true none [ChunkEv.chunk [0, 0, 0], ChunkEv.chunk [1]]
        (fun _ => false) (fun i => 150 + 10 * i)).events, p.2.percent = 0)
    ∧ (∃ fp, (download (chars ("j")) true none [ChunkEv.chunk [0, 0, 0], ChunkEv.chunk [1]]
        (fun _ => false) (fun i => 150 + 10 * i)).finalProgress = some fp
        ∧ fp.percent = 100) := by
  constructor
  · exact (progress_event_stream (chars ("j")) true none
      [ChunkEv.chunk [0, 0, 0], ChunkEv.chunk [1]] (fun _ => false)
      (fun i => 150 + 10 * i)).2.2.1 rfl
  · exact (progress_event_stream (chars ("j")) true none
      [ChunkEv.chunk [0, 0, 0], ChunkEv.chunk [1]] (fun _ => false)
      (fun i => 150 + 10 * i)).2.2.2 (by decide)

end Downloader

/-! ### Comparator lemmas shared by the sorting and signing proofs -/

theorem nat_cmp_ne_gt {x y : Nat} : compare x y ≠ .gt ↔ x ≤ y := by
  rw [Ne, Nat.compare_eq_gt]
  omega

theorem chCmp_cons (x y : Char) (xs ys : List Char) :
    chCmp (x :: xs) (y :: ys)
      = match compare x.toNat y.toNat with
        | .eq => chCmp xs ys
        | o => o := rfl

theorem chCmp_eq_of : ∀ {a b : List Char}, chCmp a b = .eq → a = b := by
  intro a
  induction a with
  | nil =>
    intro b h
    cases b with
    | nil => rfl
    | cons y ys => exact absurd h (by simp [chCmp])
  | cons x xs ih =>
    intro b h
    cases b with
    | nil => exact absurd h (by simp [chCmp])
    | cons y ys =>
      rw [chCmp_cons] at h
      rcases Nat.lt_trichotomy x.toNat y.toNat with hc | hc | hc
      · rw [Nat.compare_eq_lt.mpr hc] at h
        exact absurd h (by simp)
      · rw [Nat.compare_eq_eq.mpr hc] at h
        have hxy : x = y := by
          have := congrArg Char.ofNat hc
          rwa [Char.ofNat_toNat, Char.ofNat_toNat] at this
        rw [hxy, ih h]
      · rw [Nat.compare_eq_gt.mpr hc] at h
        exact absurd h (by simp)

theorem chCmp_gt_lt : ∀ {a b : List Char}, chCmp a b = .gt → chCmp b a = .lt := by
  intro a
  induction a with
  | nil =>
    intro b h
    cases b <;> simp_all [chCmp]
  | cons x xs ih =>
    intro b h
    cases b with
    | nil => simp [chCmp]
    | cons y ys =>
      rw [chCmp_cons] at h
      rw [chCmp_cons]
      rcases Nat.lt_trichotomy x.toNat y.toNat with hc | hc | hc
      · rw [Nat.compare_eq_lt.mpr hc] at h
        exact absurd h (by simp)
      · rw [Nat.compare_eq_eq.mpr hc] at h
        rw [Nat.compare_eq_eq.mpr hc.symm]
        exact ih h
      · rw [Nat.compare_eq_lt.mpr hc]

theorem chCmp_le_trans : ∀ (a b c : List Char),
    chCmp a b ≠ .gt → chCmp b c ≠ .gt → chCmp a c ≠ .gt := by
  intro a
  induction a with
  | nil =>
    intro b c _ _
    cases c <;> simp [chCmp]
  | cons x xs ih =>
    intro b c hab hbc
    cases b with
    | nil => exact absurd (show chCmp (x :: xs) [] = Ordering.gt from rfl) hab
    | cons y ys =>
      cases c with
      | nil => exact absurd (show chCmp (y :: ys) [] = Ordering.gt from rfl) hbc
      | cons z zs =>
        rw [chCmp_cons] at hab hbc ⊢
        rcases Nat.lt_trichotomy x.toNat y.toNat with h1 | h1 | h1
        · rw [Nat.compare_eq_lt.mpr h1] at hab
          rcases Nat.lt_trichotomy y.toNat z.toNat with h2 | h2 | h2
          · rw [Nat.compare_eq_lt.mpr (by omega : x.toNat < z.toNat)]
            simp
          · rw [Nat.compare_eq_lt.mpr (by omega : x.toNat < z.toNat)]
            simp
          · rw [Nat.compare_eq_gt.mpr h2] at hbc
            exact absurd rfl hbc
        · rcases Nat.lt_trichotomy y.toNat z.toNat with h2 | h2 | h2
          · rw [Nat.compare_eq_lt.mpr (by omega : x.toNat < z.toNat)]
            simp
          · rw [Nat.compare_eq_eq.mpr h1] at hab
            rw [Nat.compare_eq_eq.mpr h2] at hbc
            rw [Nat.compare_eq_eq.mpr (by omega : x.toNat = z.toNat)]
            exact ih ys zs hab hbc
          · rw [Nat.compare_eq_gt.mpr h2] at hbc
            exact absurd rfl hbc
        · rw [Nat.compare_eq_gt.mpr h1] at hab
          exact absurd rfl hab

theorem chCmp_le_total : ∀ (a b : List Char), chCmp a b ≠ .gt ∨ chCmp b a ≠ .gt := by
  intro a
  induction a with
  | nil =>
    intro b
    left
    cases b <;> simp [chCmp]
  | cons x xs ih =>
    intro b
    cases b with
    | nil =>
      right
      simp [chCmp]
    | cons y ys =>
      rcases Nat.lt_trichotomy x.toNat y.toNat with h | h | h
      · left
        rw [chCmp_cons, Nat.compare_eq_lt.mpr h]
        simp
      · rcases ih ys with hh | hh
        · left
          rw [chCmp_cons, Nat.compare_eq_eq.mpr h]
          exact hh
        · right
          rw [chCmp_cons, Nat.compare_eq_eq.mpr h.symm]
          exact hh
      · right
        rw [chCmp_cons, Nat.compare_eq_lt.mpr h]
        simp

theorem mem_insertLe (le : α → α → Bool) (x : α) :
    ∀ (l : List α) (z : α), z ∈ insertLe le x l ↔ z = x ∨ z ∈ l := by
  intro l
  induction l with
  | nil => intro z; simp [insertLe]
  | cons y ys ih =>
    intro z
    rw [insertLe]
    split
    · rw [List.mem_cons, ih z, List.mem_cons]
      tauto
    · simp [List.mem_cons]

theorem pairwise_insertLe {le : α → α → Bool}
    (htrans : ∀ a b c, le a b = true → le b c = true → le a c = true)
    (htotal : ∀ a b, le a b = true ∨ le b a = true) (x : α) :
    ∀ (l : List α), l.Pairwise (fun a b => le a b = true) →
      (insertLe le x l).Pairwise (fun a b => le a b = true) := by
  intro l
  induction l with
  | nil =>
    intro _
    exact List.pairwise_singleton _ _
  | cons y ys ih =>
    intro hp
    rw [List.pairwise_cons] at hp
    rw [insertLe]
    split
    · rename_i hley
      rw [List.pairwise_cons]
      refine ⟨?_, ih hp.2⟩
      intro z hz
      rcases (mem_insertLe le x ys z).mp hz with rfl | hzys
      · exact hley
      · exact hp.1 z hzys
    · rename_i hley
      have hxy : le x y = true := by
        rcases htotal x y with h | h
        · exact h
        · exact absurd h hley
      rw [List.pairwise_cons]
      refine ⟨?_, List.pairwise_cons.mpr hp⟩
      intro z hz
      rcases List.mem_cons.mp hz with rfl | hzys
      · exact hxy
      · exact htrans x y z hxy (hp.1 z hzys)

/-- The stable sort is pairwise-ordered for any transitive, total
`Ordering`-valued comparator. -/
theorem sortBy_pairwise (cmp : α → α → Ordering)
    (htrans : ∀ a b c, cmp a b ≠ .gt → cmp b c ≠ .gt → cmp a c ≠ .gt)
    (htotal : ∀ a b, cmp a b ≠ .gt ∨ cmp b a ≠ .gt) (l : List α) :
    List.Pairwise (fun a b => cmp a b ≠ .gt) (sortBy cmp l) := by
  have hle_trans : ∀ a b c : α, decide (cmp a b ≠ Ordering.gt) = true →
      decide (cmp b c ≠ Ordering.gt) = true → decide (cmp a c ≠ Ordering.gt) = true :=
    fun a b c h1 h2 =>
      decide_eq_true (htrans a b c (of_decide_eq_true h1) (of_decide_eq_true h2))
  have hle_total : ∀ a b : α, decide (cmp a b ≠ Ordering.gt) = true
      ∨ decide (cmp b a ≠ Ordering.gt) = true := fun a b => by
    rcases htotal a b with h | h
    · exact Or.inl (decide_eq_true h)
    · exact Or.inr (decide_eq_true h)
  have main : ∀ (xs : List α) (acc : List α),
      acc.Pairwise (fun a b => decide (cmp a b ≠ Ordering.gt) = true) →
      (List.foldl (fun acc x => insertLe (fun a b => decide (cmp a b ≠ Ordering.gt)) x acc)
          acc xs).Pairwise (fun a b => decide (cmp a b ≠ Ordering.gt) = true) := by
    intro xs
    induction xs with
    | nil =>
      intro acc h
      exact h
    | cons x rest ih =>
      intro acc h
      exact ih _ (pairwise_insertLe hle_trans hle_total x acc h)
  exact (main l [] List.Pairwise.nil).imp (fun h => of_decide_eq_true h)

theorem twitter_le_trans (a b c : Format) (hab : twitterFormatCmp a b ≠ .gt)
    (hbc : twitterFormatCmp b c ≠ .gt) : twitterFormatCmp a c ≠ .gt := by
  rw [twitterFormatCmp, nat_cmp_ne_gt] at hab hbc ⊢
  omega

theorem twitter_le_total (a b : Format) :
    twitterFormatCmp a b ≠ .gt ∨ twitterFormatCmp b a ≠ .gt := by
  rw [twitterFormatCmp, twitterFormatCmp, nat_cmp_ne_gt, nat_cmp_ne_gt]
  omega

theorem bili_le_trans (a b c : Format) (hab : biliFormatCmp a b ≠ .gt)
    (hbc : biliFormatCmp b c ≠ .gt) : biliFormatCmp a c ≠ .gt := by
  rw [biliFormatCmp] at hab hbc ⊢
  split at hab <;> split at hbc <;> split <;>
    rename_i h1 h2 h3 <;>
    simp only [ne_eq, not_not] at h1 h2 h3 <;>
    first
      | exact chCmp_le_trans c.id b.id a.id hbc hab
      | (try rw [nat_cmp_ne_gt] at hab
         try rw [nat_cmp_ne_gt] at hbc
         try rw [nat_cmp_ne_gt]
         omega)

theorem bili_le_total (a b : Format) :
    biliFormatCmp a b ≠ .gt ∨ biliFormatCmp b a ≠ .gt := by
  rw [biliFormatCmp, biliFormatCmp]
  split <;> split <;>
    rename_i h1 h2 <;>
    simp only [ne_eq, not_not] at h1 h2
  · rw [nat_cmp_ne_gt, nat_cmp_ne_gt]
    omega
  · exact absurd h2.symm h1
  · exact absurd h1.symm h2
  · exact chCmp_le_total b.id a.id

/-- Any list sorted by the Bilibili comparator is pairwise ordered by
non-increasing height with ties in descending id order. -/
theorem sortBy_bili_claim (l : List Format) :
    List.Pairwise
      (fun a b => heightD b ≤ heightD a ∧ (heightD a = heightD b → chCmp b.id a.id ≠ .gt))
      (sortBy biliFormatCmp l) := by
  refine (sortBy_pairwise biliFormatCmp bili_le_trans bili_le_total l).imp ?_
  intro a b hab
  rw [biliFormatCmp] at hab
  split at hab
  · rename_i hne
    rw [nat_cmp_ne_gt] at hab
    exact ⟨hab, fun he => absurd he hne⟩
  · rename_i hne
    simp only [ne_eq, not_not] at hne
    exact ⟨le_of_eq hne.symm, fun _ => hab⟩

namespace Twitter

theorem parse_synd_formats (data : SyndicationResponse) (tid : List Char)
    (info : MediaInfo) (h : parse_syndication_response data tid = .ok info) :
    ∃ l, info.formats = sortBy twitterFormatCmp l := by
  rw [parse_syndication_response] at h
  repeat' split at h
  all_goals first
    | exact Except.noConfusion h
    | exact ⟨_, (congrArg MediaInfo.formats (Except.ok.inj h)).symm⟩

theorem parse_graphql_formats (resp : GraphQLResponse) (tid : List Char)
    (info : MediaInfo) (h : parse_graphql_response resp tid = .ok info) :
    ∃ l, info.formats = sortBy twitterFormatCmp l := by
  rw [parse_graphql_response] at h
  repeat' split at h
  all_goals try (dsimp only at h)
  all_goals repeat' split at h
  all_goals first
    | exact Except.noConfusion h
    | exact ⟨_, (congrArg MediaInfo.formats (Except.ok.inj h)).symm⟩

end Twitter

/-- Claim C3 (amended): Bilibili's `build_formats` returns formats sorted by
non-increasing height with equal heights tie-broken by descending internal
format id; the Twitter parsers return formats sorted by non-increasing height
only — equal heights keep their construction order (the sort is stable), so
re-running on identical upstream data yields identical ordering, but the tie
is not broken by id. -/
theorem format_ordering :
    (∀ streams,
      List.Pairwise
        (fun a b => heightD b ≤ heightD a ∧ (heightD a = heightD b → chCmp b.id a.id ≠ .gt))
        (Bilibili.build_formats streams))
    ∧ (∀ data tid info, Twitter.parse_syndication_response data tid = .ok info →
        List.Pairwise (fun a b => heightD b ≤ heightD a) info.formats)
    ∧ (∀ resp tid info, Twitter.parse_graphql_response resp tid = .ok info →
        List.Pairwise (fun a b => heightD b ≤ heightD a) info.formats) := by
  refine ⟨fun streams => sortBy_bili_claim _, ?_, ?_⟩
  · intro data tid info h
    obtain ⟨l, hl⟩ := Twitter.parse_synd_formats data tid info h
    rw [hl]
    exact (sortBy_pairwise twitterFormatCmp twitter_le_trans twitter_le_total l).imp
      (fun hab => by rwa [twitterFormatCmp, nat_cmp_ne_gt] at hab)
  · intro resp tid info h
    obtain ⟨l, hl⟩ := Twitter.parse_graphql_formats resp tid info h
    rw [hl]
    exact (sortBy_pairwise twitterFormatCmp twitter_le_trans twitter_le_total l).imp
      (fun hab => by rwa [twitterFormatCmp, nat_cmp_ne_gt] at hab)

/-- Counterexample to C3 as stated: on the two-variant GraphQL fixture the
parser succeeds and returns two equal-height formats whose ids are in
ascending order (`mp4_100` before `mp4_200`), so the claimed
descending-id tie-break does not hold. -/
theorem format_ordering_counterexample :
    (Twitter.parse_graphql_response Twitter.twoVariantResp (chars ("1"))).isOk = true
    ∧ Twitter.twoVariantFormats.map (fun f => (f.id, heightD f))
        = [(chars ("mp4_100"), 720), (chars ("mp4_200"), 720)]
    ∧ ¬ claimedFormatOrder Twitter.twoVariantFormats := by
  refine ⟨by decide, by decide, by decide⟩

/-- Witness for the amended C3 on concrete data: the fixture's GraphQL result
is height-sorted, and a two-stream Bilibili DASH manifest yields a list
ordered by the height/id criterion. -/
theorem format_ordering_witness :
    List.Pairwise (fun a b => heightD b ≤ heightD a)
      ((match Twitter.parse_graphql_response Twitter.twoVariantResp (chars ("1")) with
        | .ok mi => mi
        | .error _ => { id := [], title := [], uploader := none, thumbnail := none,
                        duration := none, media_type := .video, formats := [] }).formats)
    ∧ List.Pairwise
        (fun a b => heightD b ≤ heightD a ∧ (heightD a = heightD b → chCmp b.id a.id ≠ .gt))
        (Bilibili.build_formats
          { video := [{ id := 64, base_url := [], bandwidth := 1, width := 1280,
                        height := 720, codecid := 7 },
                      { id := 80, base_url := [], bandwidth := 2, width := 1920,
                        height := 1080, codecid := 7 }]
            audio := none }) := by
  constructor
  · cases hp : Twitter.parse_graphql_response Twitter.twoVariantResp (chars ("1")) with
    | ok mi => exact format_ordering.2.2 Twitter.twoVariantResp (chars ("1")) mi hp
    | error e =>
      have hok : (Twitter.parse_graphql_response Twitter.twoVariantResp
          (chars ("1"))).isOk = true := by decide
      rw [hp] at hok
      exact absurd hok (by simp [Except.isOk, Except.toBool])
  · exact format_ordering.1 _

namespace Bilibili

/-! ### WBI signing (C6) -/

theorem insertSorted_self_mem (k v : List Char) :
    ∀ l : List (List Char × List Char), (k, v) ∈ insertSorted k v l := by
  intro l
  induction l with
  | nil => exact List.mem_singleton.mpr rfl
  | cons qw rest ih =>
    rw [insertSorted]
    split
    · exact List.mem_cons_self _ _
    · exact List.mem_cons_self _ _
    · exact List.mem_cons_of_mem _ ih

theorem insertSorted_mem_other (k v : List Char) :
    ∀ (l : List (List Char × List Char)) (kv : List Char × List Char),
      kv ∈ l → kv.1 ≠ k → kv ∈ insertSorted k v l := by
  intro l
  induction l with
  | nil =>
    intro kv h _
    exact absurd h (List.not_mem_nil kv)
  | cons qw rest ih =>
    intro kv h hne
    rw [insertSorted]
    split
    · exact List.mem_cons_of_mem _ h
    · rename_i heq
      rcases List.mem_cons.mp h with rfl | hrest
      · exact absurd (chCmp_eq_of heq).symm hne
      · exact List.mem_cons_of_mem _ hrest
    · rcases List.mem_cons.mp h with rfl | hrest
      · exact List.mem_cons_self _ _
      · exact List.mem_cons_of_mem _ (ih kv hrest hne)

theorem insertSorted_head (k v : List Char) :
    ∀ (l : List (List Char × List Char)) (x : List Char × List Char),
      x ∈ (insertSorted k v l).head? → x = (k, v) ∨ x ∈ l.head? := by
  intro l x
  cases l with
  | nil =>
    intro h
    rw [insertSorted, List.head?_cons, Option.mem_some_iff] at h
    exact Or.inl h.symm
  | cons qw rest =>
    rw [insertSorted]
    split
    · intro h
      rw [List.head?_cons, Option.mem_some_iff] at h
      exact Or.inl h.symm
    · intro h
      rw [List.head?_cons, Option.mem_some_iff] at h
      exact Or.inl h.symm
    · intro h
      rw [List.head?_cons, Option.mem_some_iff] at h
      exact Or.inr (by rw [List.head?_cons, Option.mem_some_iff]; exact h)

/-- `BTreeMap::insert` keeps the association list strictly sorted by key. -/
theorem insertSorted_chain (k v : List Char) :
    ∀ l : List (List Char × List Char),
      List.Chain' (fun p q : List Char × List Char => chCmp p.1 q.1 = .lt) l →
      List.Chain' (fun p q : List Char × List Char => chCmp p.1 q.1 = .lt)
        (insertSorted k v l) := by
  intro l
  induction l with
  | nil =>
    intro _
    exact List.chain'_singleton _
  | cons qw rest ih =>
    intro h
    rw [insertSorted]
    split
    · rename_i hlt
      exact (List.chain'_cons'.mpr ⟨fun y hy => by
        rw [List.head?_cons, Option.mem_some_iff] at hy
        subst hy
        exact hlt, h⟩)
    · rename_i heq
      obtain rfl : k = qw.1 := chCmp_eq_of heq
      rw [List.chain'_cons'] at h ⊢
      exact ⟨h.1, h.2⟩
    · rename_i hgt
      rw [List.chain'_cons'] at h
      rw [List.chain'_cons']
      refine ⟨?_, ih h.2⟩
      intro y hy
      rcases insertSorted_head k v rest y hy with rfl | hmem
      · exact chCmp_gt_lt hgt
      · exact h.1 y hmem

/-- Claim C6: WBI signing.  With a mixin key, `wbi_sign` inserts the current
unix timestamp as the `wts` parameter, iterates all parameters in ascending
key order (insertion keeps the map sorted: conjunct 2; the timestamp is
present and all other parameters are kept: conjuncts 3-4), strips `!'()*`
from each value before URL-encoding, joins `key=value` pairs with `&`,
appends the mixin key, and appends `&w_rid=` followed by the digest of that
concatenation (conjunct 1, definitional because the embedding mirrors the
source construction).  Without a mixin key it returns the sorted URL-encoded
query with no `wts` and no `w_rid` (conjuncts 5-6). -/
theorem wbi_signing (key : List Char) (wts : Nat)
    (params : List (List Char × List Char))
    (hsorted : List.Chain' (fun p q : List Char × List Char => chCmp p.1 q.1 = .lt) params) :
    (wbi_sign (some key) wts params
        = List.intercalate (chars ("&"))
            ((insertSorted (chars ("wts")) (natChars wts) params).map
              (fun kv => kv.1 ++ chars ("=") ++ urlencode (filter_wbi_value kv.2)))
          ++ chars ("&w_rid=")
          ++ md5_hex (List.intercalate (chars ("&"))
              ((insertSorted (chars ("wts")) (natChars wts) params).map
                (fun kv => kv.1 ++ chars ("=") ++ urlencode (filter_wbi_value kv.2)))
              ++ key))
    ∧ List.Chain' (fun p q : List Char × List Char => chCmp p.1 q.1 = .lt)
        (insertSorted (chars ("wts")) (natChars wts) params)
    ∧ (chars ("wts"), natChars wts) ∈ insertSorted (chars ("wts")) (natChars wts) params
    ∧ (∀ kv ∈ params, kv.1 ≠ chars ("wts") →
        kv ∈ insertSorted (chars ("wts")) (natChars wts) params)
    ∧ wbi_sign none wts params = build_query params
    ∧ build_query params
        = List.intercalate (chars ("&"))
            (params.map (fun kv => kv.1 ++ chars ("=") ++ urlencode kv.2)) :=
  ⟨rfl,
   insertSorted_chain _ _ params hsorted,
   insertSorted_self_mem _ _ params,
   fun kv h hne => insertSorted_mem_other _ _ params kv h hne,
   rfl,
   rfl⟩

/-- Witness for C6 at the concrete parameter map `fetch_play_url` signs: the
map is strictly key-sorted, and after inserting `wts` it still is, with the
timestamp binding present. -/
theorem wbi_signing_witness :
    List.Chain' (fun p q : List Char × List Char => chCmp p.1 q.1 = .lt)
      (insertSorted (chars ("wts")) (natChars 1700000000) (play_url_params 2 3))
    ∧ (chars ("wts"), natChars 1700000000)
        ∈ insertSorted (chars ("wts")) (natChars 1700000000) (play_url_params 2 3) := by
  have hs : List.Chain' (fun p q : List Char × List Char => chCmp p.1 q.1 = .lt)
      (play_url_params 2 3) := by
    simp only [play_url_params, List.chain'_cons, List.chain'_singleton, and_true]
    refine ⟨?_, ?_, ?_, ?_, ?_⟩ <;> decide
  constructor
  · exact (wbi_signing (chars ("k")) 1700000000 (play_url_params 2 3) hs).2.1
  · exact (wbi_signing (chars ("k")) 1700000000 (play_url_params 2 3) hs).2.2.1

end Bilibili

end VGet
